import Mathlib

/-
  Verification of the hotel-crawl manager (React/Electron queue orchestrator plus
  Booking.com field resolvers), shallowly embedded from the TypeScript/JavaScript
  sources:
    - src/App.tsx                       : queue orchestrator (checkQueue, processTask,
                                          handleResetTask, handleAddLinks, interval wiring)
    - src/unnamed/part_006 (types.ts)   : TaskStatus, Task, HotelData, AppConfig
    - src/unnamed/part_006 (crawler)    : getRating (composite score/reviewCount/category),
                                          getHotelName, getAddress, getFacilities, getFAQs
  The orchestrator is modelled as a labelled transition system.  The React state
  value holds the authoritative queue; checkQueue reads the queueRef snapshot,
  which is re-synchronised by a useEffect after each render.  The model therefore
  keeps the authoritative queue and the snapshot as separate fields and makes the
  re-synchronisation an explicit step that may interleave freely with the others,
  exactly as the event loop allows.  Completion of an in-flight crawl is a step
  consuming an in-flight token.  Operator actions modelled: reset of a finished
  task (the only kind the UI exposes a reset button for), adding links, and the
  start/pause toggle.  Deleting or clearing tasks only removes tasks and is
  outside the claims considered here.
-/

namespace Crawl2

/-- TaskStatus enum from types.ts. -/
inductive TaskStatus where
  | IDLE
  | WAITING
  | PROCESSING
  | COMPLETED
  | ERROR
deriving DecidableEq, Repr

/-- HouseRules shape from types.ts (string fields extracted by getHouseRules). -/
structure HouseRules where
  checkIn : Option String := none
  checkOut : Option String := none
  pets : Option String := none
deriving DecidableEq, Repr

/-- HotelData as assembled in processTask (src/App.tsx lines 140-156); number-valued
rating is modelled by a rational. -/
structure HotelData where
  name : String
  address : String
  rating : ℚ
  images : List String
  facilities : Option (List String) := none
  faqs : Option (List (String × String)) := none
  about : Option String := none
  reviewCount : Option ℕ := none
  ratingCategory : Option String := none
  houseRules : Option HouseRules := none
  cityName : Option String := none
  regionName : Option String := none
  countryName : Option String := none
deriving DecidableEq, Repr

/-- Task record from types.ts.  Ids are modelled as naturals (the source uses random
strings); log entries are kept as their message strings. -/
structure Task where
  id : ℕ
  url : String
  status : TaskStatus
  progress : ℕ
  logs : List String
  result : Option HotelData := none
  error : Option String := none
  createdAt : ℕ
  finishedAt : Option ℕ := none
deriving DecidableEq, Repr

/-- List of task ids of a queue. -/
def ids (l : List Task) : List ℕ := l.map (·.id)

/-- First task of the list carrying the given id (queues keep ids unique). -/
def taskOf (l : List Task) (i : ℕ) : Option Task := l.find? (fun t => decide (t.id = i))

/-- Status of the task with the given id, when present. -/
def statusOf (l : List Task) (i : ℕ) : Option TaskStatus := (taskOf l i).map (·.status)

/-- Result field of the task with the given id, when present. -/
def resultOf (l : List Task) (i : ℕ) : Option (Option HotelData) := (taskOf l i).map (·.result)

/-- Error field of the task with the given id, when present. -/
def errorOf (l : List Task) (i : ℕ) : Option (Option String) := (taskOf l i).map (·.error)

/-- The setQueue(prev.map(t => t.id === id ? f(t) : t)) update pattern used throughout
src/App.tsx. -/
def mapById (l : List Task) (i : ℕ) (f : Task → Task) : List Task :=
  l.map (fun t => if t.id = i then f t else t)

/-- Number of PROCESSING tasks, as computed by checkQueue
(queue.filter(t => t.status === PROCESSING).length). -/
def countProcessing (l : List Task) : ℕ :=
  l.countP (fun t => decide (t.status = TaskStatus.PROCESSING))

/-- First WAITING task of the snapshot (queue.find(t => t.status === WAITING)). -/
def firstWaiting (l : List Task) : Option Task :=
  l.find? (fun t => decide (t.status = TaskStatus.WAITING))

/-! Field resolver cascade (crawler, src/unnamed/part_006 and src/crawlers/bookingCrawler.js).
    The page is modelled as an association list from CSS selector to the first element
    that selector matches; an element carries its text content.  JavaScript truthiness
    on strings ("" falsy) and numbers (0 and NaN falsy) is modelled explicitly;
    parseFloat is modelled on canonical decimal literals (digits, optionally a dot and
    digits), which covers every value the resolvers feed it, with NaN rendered as none. -/

/-- DOM element, reduced to the text content the resolvers read. -/
structure Elem where
  textContent : String
deriving DecidableEq, Repr

/-- Page as a selector table: document.querySelector(sel) returns the first match. -/
def Page : Type := List (String × Elem)

/-- Model of document.querySelector on the selector table. -/
def querySelector (p : Page) (sel : String) : Option Elem :=
  (p.find? (fun e => decide (e.1 = sel))).map (·.2)

/-- JavaScript truthiness of an optional string value ("" and null/undefined are falsy). -/
def sTruthy : Option String → Bool
  | none => false
  | some s => s ≠ ""

/-- JavaScript truthiness of an optional numeric value (0, NaN, null, undefined falsy;
NaN is modelled as none). -/
def qTruthy : Option ℚ → Bool
  | none => false
  | some q => q ≠ 0

/-- JavaScript truthiness of an optional natural value (0, null, undefined falsy). -/
def nTruthy : Option ℕ → Bool
  | none => false
  | some n => n ≠ 0

/-- String.trim of JavaScript, implemented structurally over the character list so that
concrete instances evaluate inside the kernel. -/
def jsTrim (s : String) : String :=
  String.mk (((s.data.dropWhile Char.isWhitespace).reverse.dropWhile Char.isWhitespace).reverse)

/-- Decimal digit value of a character, when it is a digit. -/
def digitVal? (c : Char) : Option ℕ :=
  if c.isDigit then some (c.toNat - 48) else none

/-- Natural number denoted by a nonempty digit string. -/
def digitsToNat? : List Char → Option ℕ
  | [] => none
  | cs => cs.foldl (fun acc c =>
      match acc, digitVal? c with
      | some n, some d => some (n * 10 + d)
      | _, _ => none) (some 0)

/-- Split a character list at the dots. -/
def splitDot : List Char → List (List Char)
  | [] => [[]]
  | c :: cs =>
    if c = '.' then [] :: splitDot cs
    else
      match splitDot cs with
      | [] => [[c]]
      | g :: gs => (c :: g) :: gs

/-- Model of parseFloat on canonical decimal literals (digits, optionally one dot and
digits), which covers every value the resolvers feed it; anything else is NaN (none). -/
def jsParseFloat (s : String) : Option ℚ :=
  match splitDot s.data with
  | [w] => (digitsToNat? w).map (fun n => (n : ℚ))
  | [w, f] =>
    match digitsToNat? w, digitsToNat? f with
    | some a, some b => some (mkRat (a * 10 ^ f.length + b) (10 ^ f.length))
    | _, _ => none
  | _ => none

/-- Model of parseInt on plain digit strings (the only shape the resolvers feed it). -/
def jsParseInt (s : String) : Option ℕ := digitsToNat? s.data

/-- Aggregate rating node of the JSON-LD schema blob (values arrive as strings). -/
structure AggregateRating where
  ratingValue : Option String := none
  reviewCount : Option String := none
deriving DecidableEq, Repr

/-- Address value in the schema blob: either a bare string or a structured object. -/
inductive AddrVal where
  | str (s : String)
  | obj (streetAddress : Option String)
deriving DecidableEq, Repr

/-- JSON-LD schema blob fields the resolvers read (getSchemaData result). -/
structure SchemaData where
  name : Option String := none
  address : Option AddrVal := none
  aggregateRating : Option AggregateRating := none
  description : Option String := none
deriving DecidableEq, Repr

/-- Composite rating record built by getRating. -/
structure RatingResult where
  score : Option ℚ := none
  reviewCount : Option ℕ := none
  category : Option String := none
deriving DecidableEq, Repr

/-- Fixed score thresholds of getRating (src/unnamed/part_006 lines 1122-1129). -/
def categoryFromScore (q : ℚ) : String :=
  if 9 ≤ q then "Excellent"
  else if 8 ≤ q then "Very Good"
  else if 7 ≤ q then "Good"
  else if 6 ≤ q then "Pleasant"
  else "Fair"

/-- Schema phase of getRating (src/unnamed/part_006 lines 1105-1129): parse the
aggregateRating values, then derive the category from the fixed score thresholds when
(and only when) the schema produced a truthy score. -/
def ratingFromSchema (schemaData : Option SchemaData) : RatingResult :=
  let base : RatingResult :=
    match schemaData with
    | none => {}
    | some sd =>
      match sd.aggregateRating with
      | none => {}
      | some agg =>
        { score := match agg.ratingValue with
            | some v => if v ≠ "" then jsParseFloat v else none
            | none => none
          reviewCount := match agg.reviewCount with
            | some v => if v ≠ "" then jsParseInt v else none
            | none => none
          category := none }
  match base.score with
  | some q =>
    if q ≠ 0 then { base with category := some (categoryFromScore q) }
    else base
  | none => base

/-- getRating (src/unnamed/part_006 lines 1103-1211): schema aggregateRating first
(with threshold-derived category); the DOM evaluation (passed here as the
already-evaluated domRating) is consulted only when score or reviewCount is still
falsy, and fills each missing field separately. -/
def getRating (schemaData : Option SchemaData) (domRating : RatingResult) : RatingResult :=
  let withCat : RatingResult := ratingFromSchema schemaData
  if qTruthy withCat.score ∧ nTruthy withCat.reviewCount then withCat
  else
    { score := if ¬ qTruthy withCat.score ∧ qTruthy domRating.score then
        domRating.score else withCat.score
      reviewCount := if ¬ nTruthy withCat.reviewCount ∧ nTruthy domRating.reviewCount then
        domRating.reviewCount else withCat.reviewCount
      category := if ¬ sTruthy withCat.category ∧ sTruthy domRating.category then
        domRating.category else withCat.category }

/-- DOM selector loop shared by getHotelName and getAddress: return the trimmed text of
the first selector that matches an element, even when that text is empty; move on only
when the selector matches nothing. -/
def domFirstMatch (p : Page) : List String → Option String
  | [] => none
  | sel :: rest =>
    match querySelector p sel with
    | some el => some (jsTrim el.textContent)
    | none => domFirstMatch p rest

/-- Selector list of getHotelName. -/
def nameSelectors : List String :=
  ["h2.pp-header__title",
   "h2[data-testid=\"property-name\"]",
   ".hp__hotel-name",
   "h2.hp-hotel-name"]

/-- Selector list of getAddress. -/
def addressSelectors : List String :=
  ["[data-testid=\"address\"]",
   ".hp_address_subtitle",
   ".address",
   "span.hp_address_subtitle"]

/-- getHotelName (src/crawlers/bookingCrawler.js lines 114-142): truthy schema name
first, then the DOM selector loop. -/
def getHotelName (schemaData : Option SchemaData) (p : Page) : Option String :=
  match schemaData with
  | some sd =>
    match sd.name with
    | some n => if n ≠ "" then some n else domFirstMatch p nameSelectors
    | none => domFirstMatch p nameSelectors
  | none => domFirstMatch p nameSelectors

/-- getAddress (src/crawlers/bookingCrawler.js lines 147-182): truthy schema address
(bare string, or its streetAddress when structured) first, then the DOM selector loop. -/
def getAddress (schemaData : Option SchemaData) (p : Page) : Option String :=
  match schemaData with
  | some sd =>
    match sd.address with
    | some (.str s) => if s ≠ "" then some s else domFirstMatch p addressSelectors
    | some (.obj st) =>
      match st with
      | some street => if street ≠ "" then some street else domFirstMatch p addressSelectors
      | none => domFirstMatch p addressSelectors
    | none => domFirstMatch p addressSelectors
  | none => domFirstMatch p addressSelectors

/-- Facilities page, reduced to what getFacilities reads: the item texts inside each
facility-group-container, and the element texts each fallback selector matches. -/
structure FacilitiesPage where
  containers : List (List String)
  fallbackPopular : List String
  fallbackImportant : List String
  fallbackGroups : List String
deriving DecidableEq, Repr

/-- Push step of getFacilities: trim, drop empties, drop exact-text duplicates
(if text and not result.includes(text) then result.push(text)). -/
def dedupPush (res : List String) (raw : String) : List String :=
  let text := jsTrim raw
  if text ≠ "" ∧ text ∉ res then res ++ [text] else res

/-- getFacilities (src/unnamed/part_006 lines 1216-1271): collect de-duplicated texts
from the facility-group containers; when that yields nothing, use the first fallback
selector that matches any element. -/
def getFacilities (p : FacilitiesPage) : List String :=
  let primary := p.containers.foldl (fun r c => c.foldl dedupPush r) []
  if primary.length = 0 then
    match [p.fallbackPopular, p.fallbackImportant, p.fallbackGroups].find?
        (fun els => !els.isEmpty) with
    | some els => els.foldl dedupPush []
    | none => []
  else primary

/-- One entry of the faqs-list block: the question text and the answer element text
when any of the parent lookups found one. -/
structure FAQItem where
  question : String
  answer : Option String
deriving DecidableEq, Repr

/-- FAQ page, reduced to what getFAQs reads: the faqs-list items when that block is
present, and the question/answer pairs each fallback selector yields. -/
structure FAQPage where
  faqsList : Option (List FAQItem)
  fallbackFaqItem : List (Option String × Option String)
  fallbackFaqClass : List (Option String × Option String)
  fallbackHpFaq : List (Option String × Option String)
deriving DecidableEq, Repr

/-- getFAQs (src/unnamed/part_006 lines 1276-1354): push every question that has an
answer, with no duplicate check; when the primary block yields nothing, use the first
fallback selector that matches any element. -/
def getFAQs (p : FAQPage) : List (String × String) :=
  let primary :=
    match p.faqsList with
    | some items =>
      items.foldl (fun r it =>
        match it.answer with
        | some a => r ++ [(jsTrim it.question, jsTrim a)]
        | none => r) []
    | none => []
  if primary.length = 0 then
    match [p.fallbackFaqItem, p.fallbackFaqClass, p.fallbackHpFaq].find?
        (fun els => !els.isEmpty) with
    | some els =>
      els.foldl (fun r it =>
        match it.1, it.2 with
        | some q, some a => r ++ [(jsTrim q, jsTrim a)]
        | _, _ => r) []
    | none => []
  else primary

/-- Raw crawler response consumed by processTask (response.data). -/
structure CrawlerData where
  name : Option String := none
  address : Option String := none
  rating : Option RatingResult := none
  images : Option (List String) := none
  facilities : Option (List String) := none
  faqs : Option (List (String × String)) := none
  about : Option String := none
  houseRules : Option HouseRules := none
  cityName : Option String := none
  regionName : Option String := none
  countryName : Option String := none
deriving DecidableEq, Repr

/-- JavaScript a || b on an optional string ("" falsy). -/
def jsOrS (o : Option String) (d : String) : String :=
  match o with
  | some s => if s ≠ "" then s else d
  | none => d

/-- JavaScript a || b on an optional rational (0 falsy). -/
def jsOrQ (o : Option ℚ) (d : ℚ) : ℚ :=
  match o with
  | some q => if q ≠ 0 then q else d
  | none => d

/-- Result mapping of processTask (src/App.tsx lines 140-156): substitute defaults for
falsy name, address and rating score, keep the rest as optional passthrough fields;
the stored rating is rating?.score, not the composite rating object. -/
def mapCrawlerResult (crawlerData : CrawlerData) : HotelData :=
  { name := jsOrS crawlerData.name "Unknown Hotel"
    address := jsOrS crawlerData.address "No address"
    rating := jsOrQ (crawlerData.rating.bind (·.score)) 0
    images := crawlerData.images.getD []
    facilities := crawlerData.facilities
    faqs := crawlerData.faqs
    about := crawlerData.about
    reviewCount := crawlerData.rating.bind (·.reviewCount)
    ratingCategory := crawlerData.rating.bind (·.category)
    houseRules := crawlerData.houseRules
    cityName := crawlerData.cityName
    regionName := crawlerData.regionName
    countryName := crawlerData.countryName }

/-! Crawl orchestrator (src/App.tsx).  State and labelled transition system. -/

/-- Orchestrator state: the authoritative queue (the React state value after all pending
functional updates), the queueRef snapshot read by checkQueue, the running flag, the
activeTaskCount counter, the multiset of in-flight processTask executions (task ids) and
the global log (message strings). -/
structure OrchState where
  queue : List Task
  snap : List Task
  running : Bool
  activeTaskCount : ℤ
  inflight : List ℕ
  globalLogs : List String
deriving DecidableEq, Repr

/-- Initial state: empty queue, not running. -/
def initState : OrchState :=
  { queue := [], snap := [], running := false, activeTaskCount := 0,
    inflight := [], globalLogs := [] }

/-- Global log push of addLog (src/App.tsx line 103): keep the last 99 entries, append
the new one. -/
def pushGlobal (l : List String) (m : String) : List String :=
  l.drop (l.length - 99) ++ [m]

/-- Decision taken by one checkQueue invocation (src/App.tsx lines 199-215). -/
inductive CheckAction where
  | start (t : Task)
  | stop
  | skip
deriving DecidableEq, Repr

/-- checkQueue as a pure decision on the snapshot: nothing when not running; when the
PROCESSING count of the snapshot is below the concurrency limit, start the first
WAITING task, or stop the orchestrator when nothing is processing and nothing waits. -/
def tickAction (limit : ℕ) (s : OrchState) : CheckAction :=
  if s.running then
    if countProcessing s.snap < limit then
      match firstWaiting s.snap with
      | some t => .start t
      | none =>
        if countProcessing s.snap = 0 ∧
            s.snap.all (fun t => !(decide (t.status = TaskStatus.WAITING))) then
          .stop
        else .skip
    else .skip
  else .skip

/-- Entry taken by processTask when it sets a task to PROCESSING: the status update of
the setQueue call composed with the task-log append of addLog. -/
def startTask (t : Task) : Task :=
  { t with status := TaskStatus.PROCESSING, logs := t.logs ++ ["Starting task"] }

/-- Effect of processTask starting the task found in the snapshot: status to PROCESSING
by id, activeTaskCount incremented, one in-flight execution recorded, global log. -/
def applyStart (s : OrchState) (w : Task) : OrchState :=
  { s with queue := mapById s.queue w.id startTask,
           activeTaskCount := s.activeTaskCount + 1,
           inflight := w.id :: s.inflight,
           globalLogs := pushGlobal s.globalLogs "Starting task" }

/-- Effect of one checkQueue invocation on the state. -/
def applyTick (limit : ℕ) (s : OrchState) : OrchState :=
  match tickAction limit s with
  | .start w => applyStart s w
  | .stop =>
    { s with running := false,
             globalLogs := pushGlobal s.globalLogs "Queue processing finished." }
  | .skip => s

/-- Outcome of an in-flight crawl: the resolved HotelData or the caught error message,
and the Date.now() stamp of the finishing update. -/
inductive Outcome where
  | ok (r : HotelData) (now : ℕ)
  | fail (msg : String) (now : ℕ)
deriving DecidableEq, Repr

/-- Terminal update applied by processTask to the finished task (src/App.tsx lines
162-186): COMPLETED with the result, progress 100 and finishedAt on success; ERROR with
the message and finishedAt on failure, the previous result left untouched.  The task-log
append of addLog is composed in. -/
def finishTask (oc : Outcome) (t : Task) : Task :=
  match oc with
  | .ok r now =>
    { t with status := TaskStatus.COMPLETED, result := some r, progress := 100,
             finishedAt := some now, logs := t.logs ++ ["Task finished successfully."] }
  | .fail msg now =>
    { t with status := TaskStatus.ERROR, error := some msg,
             finishedAt := some now, logs := t.logs ++ ["Task failed"] }

/-- Effect of a processTask execution finishing: terminal update by id, activeTaskCount
decremented once (the finally block), the in-flight execution consumed, global log. -/
def applyComplete (s : OrchState) (i : ℕ) (oc : Outcome) : OrchState :=
  { s with queue := mapById s.queue i (finishTask oc),
           activeTaskCount := s.activeTaskCount - 1,
           inflight := s.inflight.erase i,
           globalLogs := pushGlobal s.globalLogs "Task settled" }

/-- Per-task update of handleResetTask and handleBulkReset (src/App.tsx lines 286-293
and 313-323). -/
def resetTask (t : Task) : Task :=
  { t with status := TaskStatus.WAITING, progress := 0, error := none,
           result := none, finishedAt := none }

/-- Effect of the operator resetting one task. -/
def applyReset (s : OrchState) (i : ℕ) : OrchState :=
  { s with queue := mapById s.queue i resetTask,
           globalLogs := pushGlobal s.globalLogs "Task reset to WAITING" }

/-- Fresh task built by handleAddLinks (src/App.tsx lines 230-237): WAITING, zero
progress, no logs, no result, no error, no finishedAt. -/
structure NewTask where
  id : ℕ
  url : String
  now : ℕ
deriving DecidableEq, Repr

/-- Task record created for one added link. -/
def mkTask (sp : NewTask) : Task :=
  { id := sp.id, url := sp.url, status := TaskStatus.WAITING, progress := 0,
    logs := [], result := none, error := none, createdAt := sp.now, finishedAt := none }

/-- Effect of handleAddLinks: append the new WAITING tasks. -/
def applyAdd (s : OrchState) (specs : List NewTask) : OrchState :=
  { s with queue := s.queue ++ specs.map mkTask,
           globalLogs := pushGlobal s.globalLogs "Added links to queue." }

/-- Random ids are modelled as fresh: mutually distinct and absent from the queue and
from the snapshot. -/
def freshSpecs (s : OrchState) (specs : List NewTask) : Prop :=
  (specs.map (·.id)).Nodup ∧
    ∀ i ∈ specs.map (·.id), i ∉ ids s.queue ∧ i ∉ ids s.snap

/-- Transition labels of the orchestrator. -/
inductive Label where
  | tick
  | sync
  | complete (i : ℕ) (oc : Outcome)
  | reset (i : ℕ)
  | addLinks (specs : List NewTask)
  | setRunning (b : Bool)
deriving DecidableEq

/-- Labelled transition relation of the orchestrator.  tick is one checkQueue
invocation (interval tick or delayed re-invocation) against the current snapshot;
sync is the queueRef re-synchronisation effect; complete finishes one in-flight
processTask execution; reset is the operator resetting a finished task (the UI only
offers the button on COMPLETED and ERROR tasks); addLinks and setRunning are the other
operator actions. -/
inductive StepL (limit : ℕ) : Label → OrchState → OrchState → Prop where
  | tick (s : OrchState) :
      StepL limit .tick s (applyTick limit s)
  | sync (s : OrchState) :
      StepL limit .sync s { s with snap := s.queue }
  | complete (s : OrchState) (i : ℕ) (oc : Outcome) (h : i ∈ s.inflight) :
      StepL limit (.complete i oc) s (applyComplete s i oc)
  | reset (s : OrchState) (i : ℕ) (st : TaskStatus)
      (h : statusOf s.queue i = some st)
      (hterm : st = TaskStatus.COMPLETED ∨ st = TaskStatus.ERROR) :
      StepL limit (.reset i) s (applyReset s i)
  | addLinks (s : OrchState) (specs : List NewTask) (h : freshSpecs s specs) :
      StepL limit (.addLinks specs) s (applyAdd s specs)
  | setRunning (s : OrchState) (b : Bool) :
      StepL limit (.setRunning b) s { s with running := b }

/-- One step, of any label. -/
def Step (limit : ℕ) (s s₂ : OrchState) : Prop :=
  ∃ l, StepL limit l s s₂

/-- Reachability from the initial state under free interleaving, the queueRef snapshot
lagging arbitrarily behind the queue. -/
def Reachable (limit : ℕ) (s : OrchState) : Prop :=
  Relation.ReflTransGen (Step limit) initState s

/-- One step in which a checkQueue invocation only ever runs against an up-to-date
snapshot. -/
def SyncedStep (limit : ℕ) (s s₂ : OrchState) : Prop :=
  ∃ l, StepL limit l s s₂ ∧ (l = Label.tick → s.snap = s.queue)

/-- Reachability when every checkQueue invocation sees an up-to-date snapshot. -/
def SyncedReachable (limit : ℕ) (s : OrchState) : Prop :=
  Relation.ReflTransGen (SyncedStep limit) initState s

/-! Lemmas about the by-id queue updates. -/

theorem mapById_eq_of_not_mem (l : List Task) (i : ℕ) (f : Task → Task)
    (h : i ∉ ids l) : mapById l i f = l := by
  induction l with
  | nil => rfl
  | cons t tl ih =>
    simp only [ids, List.map_cons, List.mem_cons, not_or] at h
    have hne : ¬ t.id = i := fun hh => h.1 hh.symm
    simp only [mapById, List.map_cons, if_neg hne]
    exact congrArg (List.cons t) (ih h.2)

theorem ids_mapById (l : List Task) (i : ℕ) (f : Task → Task)
    (hid : ∀ t, (f t).id = t.id) : ids (mapById l i f) = ids l := by
  induction l with
  | nil => rfl
  | cons t tl ih =>
    by_cases h : t.id = i
    · simp only [mapById, List.map_cons, if_pos h, ids, hid t]
      exact congrArg (List.cons t.id) ih
    · simp only [mapById, List.map_cons, if_neg h, ids]
      exact congrArg (List.cons t.id) ih

theorem statusOf_isSome_iff (l : List Task) (i : ℕ) :
    (statusOf l i).isSome ↔ i ∈ ids l := by
  induction l with
  | nil => simp [statusOf, taskOf, ids]
  | cons t tl ih =>
    simp only [statusOf, taskOf] at ih ⊢
    by_cases h : t.id = i
    · rw [List.find?_cons_of_pos _ (by simp [h])]
      simp [ids, h]
    · rw [List.find?_cons_of_neg _ (by simp [h])]
      rw [ih]
      simp only [ids, List.map_cons, List.mem_cons]
      constructor
      · exact fun hm => Or.inr hm
      · rintro (rfl | hm)
        · exact absurd rfl h
        · exact hm

theorem statusOf_eq_none_of_not_mem (l : List Task) (i : ℕ) (h : i ∉ ids l) :
    statusOf l i = none := by
  by_contra hne
  exact h ((statusOf_isSome_iff l i).1 (Option.isSome_iff_ne_none.2 hne))

theorem statusOf_mapById_self (l : List Task) (i : ℕ) (f : Task → Task) (c : TaskStatus)
    (hf : ∀ t, (f t).status = c) (hid : ∀ t, (f t).id = t.id) (hmem : i ∈ ids l) :
    statusOf (mapById l i f) i = some c := by
  induction l with
  | nil => simp [ids] at hmem
  | cons t tl ih =>
    simp only [statusOf, taskOf, mapById, List.map_cons] at ih ⊢
    by_cases h : t.id = i
    · rw [if_pos h, List.find?_cons_of_pos _ (by simp [hid t, h])]
      simp [hf t]
    · rw [if_neg h, List.find?_cons_of_neg _ (by simp [h])]
      have hmem₂ : i ∈ ids tl := by
        have hx : ids (t :: tl) = t.id :: ids tl := rfl
        rw [hx] at hmem
        rcases List.mem_cons.1 hmem with hh | hh
        · exact absurd hh.symm h
        · exact hh
      exact ih hmem₂

theorem statusOf_mapById_ne (l : List Task) (i j : ℕ) (f : Task → Task)
    (hid : ∀ t, (f t).id = t.id) (hne : j ≠ i) :
    statusOf (mapById l i f) j = statusOf l j := by
  induction l with
  | nil => rfl
  | cons t tl ih =>
    simp only [statusOf, taskOf, mapById, List.map_cons] at ih ⊢
    by_cases h : t.id = i
    · have hta : ¬ t.id = j := fun hh => hne (hh ▸ h)
      have htb : ¬ (f t).id = j := by rw [hid t]; exact hta
      rw [if_pos h, List.find?_cons_of_neg _ (by simp [htb]),
        List.find?_cons_of_neg _ (by simp [hta])]
      exact ih
    · by_cases hj : t.id = j
      · rw [if_neg h, List.find?_cons_of_pos _ (by simp [hj]),
          List.find?_cons_of_pos _ (by simp [hj])]
      · rw [if_neg h, List.find?_cons_of_neg _ (by simp [hj]),
          List.find?_cons_of_neg _ (by simp [hj])]
        exact ih

theorem statusOf_append_left (l₁ l₂ : List Task) (i : ℕ) (h : i ∉ ids l₂) :
    statusOf (l₁ ++ l₂) i = statusOf l₁ i := by
  induction l₁ with
  | nil =>
    rw [List.nil_append, statusOf_eq_none_of_not_mem l₂ i h]
    rfl
  | cons t tl ih =>
    simp only [statusOf, taskOf, List.cons_append] at ih ⊢
    by_cases ht : t.id = i
    · rw [List.find?_cons_of_pos _ (by simp [ht]), List.find?_cons_of_pos _ (by simp [ht])]
    · rw [List.find?_cons_of_neg _ (by simp [ht]), List.find?_cons_of_neg _ (by simp [ht])]
      exact ih

theorem statusOf_of_mem_nodup {l : List Task} {w : Task}
    (hn : (ids l).Nodup) (hm : w ∈ l) : statusOf l w.id = some w.status := by
  induction l with
  | nil => simp at hm
  | cons t tl ih =>
    have hn₂ : (ids tl).Nodup := by
      simp only [ids, List.map_cons, List.nodup_cons] at hn
      exact hn.2
    rcases List.mem_cons.1 hm with rfl | hm₂
    · simp only [statusOf, taskOf]
      rw [List.find?_cons_of_pos _ (by simp)]
      rfl
    · by_cases h : t.id = w.id
      · exfalso
        have : w.id ∈ ids tl := List.mem_map_of_mem (·.id) hm₂
        simp only [ids, List.map_cons, List.nodup_cons] at hn
        exact hn.1 (h ▸ this)
      · simp only [statusOf, taskOf]
        rw [List.find?_cons_of_neg _ (by simp [h])]
        exact ih hn₂ hm₂

/-! Counting lemmas for the PROCESSING bound. -/

theorem countProcessing_cons (t : Task) (l : List Task) :
    countProcessing (t :: l) =
      countProcessing l + (if t.status = TaskStatus.PROCESSING then 1 else 0) := by
  by_cases h : t.status = TaskStatus.PROCESSING <;>
    simp [countProcessing, List.countP_cons, h]

theorem countProcessing_mapById_nonP_le (l : List Task) (i : ℕ) (f : Task → Task)
    (hf : ∀ t, (f t).status ≠ TaskStatus.PROCESSING) :
    countProcessing (mapById l i f) ≤ countProcessing l := by
  induction l with
  | nil => exact Nat.le_refl _
  | cons t tl ih =>
    simp only [mapById, List.map_cons] at ih ⊢
    by_cases h : t.id = i
    · rw [if_pos h, countProcessing_cons, countProcessing_cons, if_neg (hf t)]
      exact Nat.le_trans (by simpa using ih) (by omega)
    · rw [if_neg h, countProcessing_cons, countProcessing_cons]
      exact Nat.add_le_add_right ih _

theorem countProcessing_mapById_toP_le (l : List Task) (i : ℕ) (f : Task → Task)
    (hn : (ids l).Nodup) :
    countProcessing (mapById l i f) ≤ countProcessing l + 1 := by
  induction l with
  | nil => simp [mapById]
  | cons t tl ih =>
    have hn₂ : (ids tl).Nodup := by
      simp only [ids, List.map_cons, List.nodup_cons] at hn
      exact hn.2
    simp only [mapById, List.map_cons] at ih ⊢
    by_cases h : t.id = i
    · have hni : i ∉ ids tl := by
        simp only [ids, List.map_cons, List.nodup_cons] at hn
        exact h ▸ hn.1
      rw [if_pos h,
        show (tl.map fun u => if u.id = i then f u else u) = tl from
          mapById_eq_of_not_mem tl i f hni,
        countProcessing_cons, countProcessing_cons]
      by_cases hft : (f t).status = TaskStatus.PROCESSING <;>
        by_cases hts : t.status = TaskStatus.PROCESSING <;> simp [hft, hts] <;> omega
    · rw [if_neg h, countProcessing_cons, countProcessing_cons]
      have := ih hn₂
      omega

theorem countProcessing_mapById_toP_eq (l : List Task) (i : ℕ) (f : Task → Task)
    (hf : ∀ t, (f t).status = TaskStatus.PROCESSING) (hn : (ids l).Nodup)
    (hs : statusOf l i = some TaskStatus.PROCESSING) :
    countProcessing (mapById l i f) = countProcessing l := by
  induction l with
  | nil => simp [statusOf, taskOf] at hs
  | cons t tl ih =>
    have hn₂ : (ids tl).Nodup := by
      simp only [ids, List.map_cons, List.nodup_cons] at hn
      exact hn.2
    simp only [mapById, List.map_cons] at ih ⊢
    by_cases h : t.id = i
    · have hni : i ∉ ids tl := by
        simp only [ids, List.map_cons, List.nodup_cons] at hn
        exact h ▸ hn.1
      have hts : t.status = TaskStatus.PROCESSING := by
        have := hs
        simp only [statusOf, taskOf] at this
        rw [List.find?_cons_of_pos _ (by simp [h])] at this
        simpa using this
      rw [if_pos h,
        show (tl.map fun u => if u.id = i then f u else u) = tl from
          mapById_eq_of_not_mem tl i f hni,
        countProcessing_cons, countProcessing_cons, if_pos (hf t), if_pos hts]
    · have hs₂ : statusOf tl i = some TaskStatus.PROCESSING := by
        have := hs
        simp only [statusOf, taskOf] at this
        rw [List.find?_cons_of_neg _ (by simp [h])] at this
        exact this
      rw [if_neg h, countProcessing_cons, countProcessing_cons]
      have := ih hn₂ hs₂
      omega

theorem countProcessing_mapById_nonP_sub (l : List Task) (i : ℕ) (f : Task → Task)
    (hf : ∀ t, (f t).status ≠ TaskStatus.PROCESSING) (hn : (ids l).Nodup)
    (hs : statusOf l i = some TaskStatus.PROCESSING) :
    countProcessing (mapById l i f) + 1 = countProcessing l := by
  induction l with
  | nil => simp [statusOf, taskOf] at hs
  | cons t tl ih =>
    have hn₂ : (ids tl).Nodup := by
      simp only [ids, List.map_cons, List.nodup_cons] at hn
      exact hn.2
    simp only [mapById, List.map_cons] at ih ⊢
    by_cases h : t.id = i
    · have hni : i ∉ ids tl := by
        simp only [ids, List.map_cons, List.nodup_cons] at hn
        exact h ▸ hn.1
      have hts : t.status = TaskStatus.PROCESSING := by
        have := hs
        simp only [statusOf, taskOf] at this
        rw [List.find?_cons_of_pos _ (by simp [h])] at this
        simpa using this
      rw [if_pos h,
        show (tl.map fun u => if u.id = i then f u else u) = tl from
          mapById_eq_of_not_mem tl i f hni,
        countProcessing_cons, countProcessing_cons, if_neg (hf t), if_pos hts]
    · have hs₂ : statusOf tl i = some TaskStatus.PROCESSING := by
        have := hs
        simp only [statusOf, taskOf] at this
        rw [List.find?_cons_of_neg _ (by simp [h])] at this
        exact this
      rw [if_neg h, countProcessing_cons, countProcessing_cons]
      have := ih hn₂ hs₂
      omega

theorem countProcessing_append (l₁ l₂ : List Task) :
    countProcessing (l₁ ++ l₂) = countProcessing l₁ + countProcessing l₂ := by
  simp [countProcessing, List.countP_append]

theorem countProcessing_new (specs : List NewTask) :
    countProcessing (specs.map mkTask) = 0 := by
  induction specs with
  | nil => rfl
  | cons sp tl ih =>
    rw [List.map_cons, countProcessing_cons, if_neg (by simp [mkTask])]
    simpa using ih

theorem statusOf_mapById_self_general (l : List Task) (i : ℕ) (f : Task → Task)
    (hid : ∀ t, (f t).id = t.id) :
    statusOf (mapById l i f) i = (taskOf l i).map (fun t => (f t).status) := by
  induction l with
  | nil => rfl
  | cons t tl ih =>
    simp only [statusOf, taskOf, mapById, List.map_cons] at ih ⊢
    by_cases h : t.id = i
    · rw [if_pos h, List.find?_cons_of_pos _ (by simp [hid t, h]),
        List.find?_cons_of_pos _ (by simp [h])]
      rfl
    · rw [if_neg h, List.find?_cons_of_neg _ (by simp [h]),
        List.find?_cons_of_neg _ (by simp [h])]
      exact ih

theorem ids_mkTask (specs : List NewTask) :
    ids (specs.map mkTask) = specs.map (·.id) := by
  induction specs with
  | nil => rfl
  | cons sp tl ih =>
    simp only [ids, List.map_cons] at ih ⊢
    exact congrArg (List.cons sp.id) ih

theorem ids_append (l₁ l₂ : List Task) : ids (l₁ ++ l₂) = ids l₁ ++ ids l₂ := by
  simp [ids]

/-! Inductive invariant for the PROCESSING bound (claim C1).  The snapshot read by
checkQueue may lag behind the queue, but the queue never holds more than one
PROCESSING task unaccounted for in the snapshot, and that one is then exactly the
first WAITING task of the snapshot, which is the only task checkQueue could start. -/

/-- Number of PROCESSING tasks of the queue that the scheduling decision on the
snapshot can fail to see, bounded by whether the snapshot task that would be started
next is already PROCESSING in the queue. -/
def slack (q snap : List Task) : ℕ :=
  match firstWaiting snap with
  | some w => if statusOf q w.id = some TaskStatus.PROCESSING then 1 else 0
  | none => 0

/-- Inductive invariant: both counts bounded by the limit, the queue count exceeds the
snapshot count at most by the slack, and task ids are unique. -/
def Inv (limit : ℕ) (s : OrchState) : Prop :=
  countProcessing s.queue ≤ limit ∧
  countProcessing s.snap ≤ limit ∧
  countProcessing s.queue ≤ countProcessing s.snap + slack s.queue s.snap ∧
  (ids s.queue).Nodup

theorem slack_of_none {q snap : List Task} (h : firstWaiting snap = none) :
    slack q snap = 0 := by
  unfold slack
  rw [h]

theorem slack_of_some {q snap : List Task} {w : Task} (h : firstWaiting snap = some w) :
    slack q snap = if statusOf q w.id = some TaskStatus.PROCESSING then 1 else 0 := by
  unfold slack
  rw [h]

theorem startTask_status (t : Task) : (startTask t).status = TaskStatus.PROCESSING := rfl

theorem startTask_id (t : Task) : (startTask t).id = t.id := rfl

theorem finishTask_status_ne (oc : Outcome) (t : Task) :
    (finishTask oc t).status ≠ TaskStatus.PROCESSING := by
  cases oc <;> simp [finishTask]

theorem finishTask_id (oc : Outcome) (t : Task) : (finishTask oc t).id = t.id := by
  cases oc <;> rfl

theorem resetTask_status_ne (t : Task) :
    (resetTask t).status ≠ TaskStatus.PROCESSING := by
  simp [resetTask]

theorem resetTask_id (t : Task) : (resetTask t).id = t.id := rfl

theorem tickAction_eq_start {limit : ℕ} {s : OrchState} {w : Task}
    (h : tickAction limit s = .start w) :
    s.running = true ∧ countProcessing s.snap < limit ∧ firstWaiting s.snap = some w := by
  unfold tickAction at h
  by_cases hr : s.running
  case neg => simp [hr] at h
  by_cases hlt : countProcessing s.snap < limit
  case neg => simp [hr, hlt] at h
  cases hfw : firstWaiting s.snap with
  | some t =>
    simp only [hr, if_true, hlt, hfw] at h
    injection h with h₂
    rw [← h₂]
    exact ⟨hr, hlt, rfl⟩
  | none =>
    simp only [hr, if_true, hlt, hfw] at h
    split at h <;> simp at h

/-- Preservation of the counting part of the invariant under a by-id update that sets
a status other than PROCESSING. -/
theorem slack_J_nonP (q snap : List Task) (i : ℕ) (f : Task → Task)
    (hfs : ∀ t, (f t).status ≠ TaskStatus.PROCESSING) (hid : ∀ t, (f t).id = t.id)
    (hn : (ids q).Nodup)
    (h3 : countProcessing q ≤ countProcessing snap + slack q snap) :
    countProcessing (mapById q i f) ≤ countProcessing snap + slack (mapById q i f) snap := by
  have hle := countProcessing_mapById_nonP_le q i f hfs
  cases hfw : firstWaiting snap with
  | none =>
    have hz : slack q snap = 0 := slack_of_none hfw
    have hz₂ : slack (mapById q i f) snap = 0 := slack_of_none hfw
    omega
  | some w =>
    by_cases hwi : w.id = i
    · have hnotP : statusOf (mapById q i f) w.id ≠ some TaskStatus.PROCESSING := by
        rw [hwi, statusOf_mapById_self_general q i f hid]
        cases ht : taskOf q i with
        | none => simp
        | some u => simp [hfs u]
      have hz₂ : slack (mapById q i f) snap = 0 := by
        rw [slack_of_some hfw, if_neg hnotP]
      by_cases hstat : statusOf q i = some TaskStatus.PROCESSING
      · have hone : slack q snap = 1 := by
          rw [slack_of_some hfw, if_pos (by rw [hwi]; exact hstat)]
        have hsub := countProcessing_mapById_nonP_sub q i f hfs hn hstat
        omega
      · have hz : slack q snap = 0 := by
          rw [slack_of_some hfw, if_neg (by rw [hwi]; exact hstat)]
        omega
    · have heq : statusOf (mapById q i f) w.id = statusOf q w.id :=
        statusOf_mapById_ne q i w.id f hid (fun hh => hwi hh)
      have hsl : slack (mapById q i f) snap = slack q snap := by
        rw [slack_of_some hfw, slack_of_some hfw, heq]
      omega

theorem Inv_initState (limit : ℕ) : Inv limit initState :=
  ⟨Nat.zero_le _, Nat.zero_le _, Nat.zero_le _, List.nodup_nil⟩

theorem Inv_step {limit : ℕ} {l : Label} {s s₂ : OrchState}
    (hstep : StepL limit l s s₂) (hI : Inv limit s) : Inv limit s₂ := by
  obtain ⟨h1, h2, h3, h4⟩ := hI
  cases hstep with
  | tick =>
    show Inv limit (applyTick limit s)
    unfold applyTick
    cases hact : tickAction limit s with
    | stop => exact ⟨h1, h2, h3, h4⟩
    | skip => exact ⟨h1, h2, h3, h4⟩
    | start w =>
      obtain ⟨hr, hlt, hfw⟩ := tickAction_eq_start hact
      have hnodup₂ : (ids (mapById s.queue w.id startTask)).Nodup := by
        rw [ids_mapById s.queue w.id startTask startTask_id]
        exact h4
      by_cases hmem : w.id ∈ ids s.queue
      · have hself : statusOf (mapById s.queue w.id startTask) w.id =
            some TaskStatus.PROCESSING := by
          rw [statusOf_mapById_self_general s.queue w.id startTask startTask_id]
          cases ht : taskOf s.queue w.id with
          | none =>
            exfalso
            have : (statusOf s.queue w.id).isSome := (statusOf_isSome_iff _ _).2 hmem
            rw [statusOf, ht] at this
            simp at this
          | some u => simp [startTask_status]
        have hsl₂ : slack (mapById s.queue w.id startTask) s.snap = 1 := by
          rw [slack_of_some hfw, if_pos hself]
        by_cases hstat : statusOf s.queue w.id = some TaskStatus.PROCESSING
        · have heq := countProcessing_mapById_toP_eq s.queue w.id startTask
            (fun t => startTask_status t) h4 hstat
          refine ⟨?_, h2, ?_, hnodup₂⟩
          · show countProcessing (mapById s.queue w.id startTask) ≤ limit
            omega
          · show countProcessing (mapById s.queue w.id startTask) ≤
              countProcessing s.snap + slack (mapById s.queue w.id startTask) s.snap
            have hone : slack s.queue s.snap = 1 := by
              rw [slack_of_some hfw, if_pos hstat]
            omega
        · have hz : slack s.queue s.snap = 0 := by
            rw [slack_of_some hfw, if_neg hstat]
          have hle := countProcessing_mapById_toP_le s.queue w.id startTask h4
          refine ⟨?_, h2, ?_, hnodup₂⟩
          · show countProcessing (mapById s.queue w.id startTask) ≤ limit
            omega
          · show countProcessing (mapById s.queue w.id startTask) ≤
              countProcessing s.snap + slack (mapById s.queue w.id startTask) s.snap
            omega
      · have heq : mapById s.queue w.id startTask = s.queue :=
          mapById_eq_of_not_mem s.queue w.id startTask hmem
        refine ⟨?_, h2, ?_, ?_⟩
        · show countProcessing (mapById s.queue w.id startTask) ≤ limit
          rw [heq]; exact h1
        · show countProcessing (mapById s.queue w.id startTask) ≤
            countProcessing s.snap + slack (mapById s.queue w.id startTask) s.snap
          rw [heq]; exact h3
        · show (ids (mapById s.queue w.id startTask)).Nodup
          rw [heq]; exact h4
  | sync =>
    exact ⟨h1, h1, Nat.le_add_right _ _, h4⟩
  | complete _ i oc hmem =>
    refine ⟨?_, h2, ?_, ?_⟩
    · show countProcessing (mapById s.queue i (finishTask oc)) ≤ limit
      exact Nat.le_trans
        (countProcessing_mapById_nonP_le s.queue i (finishTask oc) (finishTask_status_ne oc)) h1
    · show countProcessing (mapById s.queue i (finishTask oc)) ≤
        countProcessing s.snap + slack (mapById s.queue i (finishTask oc)) s.snap
      exact slack_J_nonP s.queue s.snap i (finishTask oc)
        (finishTask_status_ne oc) (finishTask_id oc) h4 h3
    · show (ids (mapById s.queue i (finishTask oc))).Nodup
      rw [ids_mapById s.queue i (finishTask oc) (finishTask_id oc)]
      exact h4
  | reset _ i st hst hterm =>
    refine ⟨?_, h2, ?_, ?_⟩
    · show countProcessing (mapById s.queue i resetTask) ≤ limit
      exact Nat.le_trans
        (countProcessing_mapById_nonP_le s.queue i resetTask (fun t => resetTask_status_ne t)) h1
    · show countProcessing (mapById s.queue i resetTask) ≤
        countProcessing s.snap + slack (mapById s.queue i resetTask) s.snap
      exact slack_J_nonP s.queue s.snap i resetTask
        (fun t => resetTask_status_ne t) (fun t => resetTask_id t) h4 h3
    · show (ids (mapById s.queue i resetTask)).Nodup
      rw [ids_mapById s.queue i resetTask (fun t => resetTask_id t)]
      exact h4
  | addLinks _ specs hfresh =>
    have hcnt : countProcessing (s.queue ++ specs.map mkTask) = countProcessing s.queue := by
      rw [countProcessing_append, countProcessing_new]
      omega
    refine ⟨?_, h2, ?_, ?_⟩
    · show countProcessing (s.queue ++ specs.map mkTask) ≤ limit
      omega
    · show countProcessing (s.queue ++ specs.map mkTask) ≤
        countProcessing s.snap + slack (s.queue ++ specs.map mkTask) s.snap
      have hsl : slack (s.queue ++ specs.map mkTask) s.snap = slack s.queue s.snap := by
        cases hfw : firstWaiting s.snap with
        | none => rw [slack_of_none hfw, slack_of_none hfw]
        | some w =>
          have hwmem : w ∈ s.snap := List.mem_of_find?_eq_some hfw
          have hwid : w.id ∈ ids s.snap := List.mem_map_of_mem (·.id) hwmem
          have hnotnew : w.id ∉ ids (specs.map mkTask) := by
            rw [ids_mkTask]
            intro hmem
            exact (hfresh.2 w.id hmem).2 hwid
          rw [slack_of_some hfw, slack_of_some hfw,
            statusOf_append_left s.queue (specs.map mkTask) w.id hnotnew]
      omega
    · show (ids (s.queue ++ specs.map mkTask)).Nodup
      rw [ids_append, List.nodup_append]
      refine ⟨h4, ?_, ?_⟩
      · rw [ids_mkTask]; exact hfresh.1
      · intro a ha hb
        rw [ids_mkTask] at hb
        exact (hfresh.2 a hb).1 ha
  | setRunning _ b =>
    exact ⟨h1, h2, h3, h4⟩

theorem Inv_reachable {limit : ℕ} {s : OrchState} (h : Reachable limit s) :
    Inv limit s := by
  induction h with
  | refl => exact Inv_initState limit
  | tail hchain hstep ih =>
    obtain ⟨l, hl⟩ := hstep
    exact Inv_step hl ih

/-! taskOf versions of the by-id update lemmas, for the result and error fields. -/

theorem taskOf_mapById_self (l : List Task) (i : ℕ) (f : Task → Task)
    (hid : ∀ t, (f t).id = t.id) :
    taskOf (mapById l i f) i = (taskOf l i).map f := by
  induction l with
  | nil => rfl
  | cons t tl ih =>
    simp only [taskOf, mapById, List.map_cons] at ih ⊢
    by_cases h : t.id = i
    · rw [if_pos h, List.find?_cons_of_pos _ (by simp [hid t, h]),
        List.find?_cons_of_pos _ (by simp [h])]
      rfl
    · rw [if_neg h, List.find?_cons_of_neg _ (by simp [h]),
        List.find?_cons_of_neg _ (by simp [h])]
      exact ih

theorem taskOf_mapById_ne (l : List Task) (i j : ℕ) (f : Task → Task)
    (hid : ∀ t, (f t).id = t.id) (hne : j ≠ i) :
    taskOf (mapById l i f) j = taskOf l j := by
  induction l with
  | nil => rfl
  | cons t tl ih =>
    simp only [taskOf, mapById, List.map_cons] at ih ⊢
    by_cases h : t.id = i
    · have hta : ¬ t.id = j := fun hh => hne (hh ▸ h)
      have htb : ¬ (f t).id = j := by rw [hid t]; exact hta
      rw [if_pos h, List.find?_cons_of_neg _ (by simp [htb]),
        List.find?_cons_of_neg _ (by simp [hta])]
      exact ih
    · by_cases hj : t.id = j
      · rw [if_neg h, List.find?_cons_of_pos _ (by simp [hj]),
          List.find?_cons_of_pos _ (by simp [hj])]
      · rw [if_neg h, List.find?_cons_of_neg _ (by simp [hj]),
          List.find?_cons_of_neg _ (by simp [hj])]
        exact ih

theorem taskOf_append_left (l₁ l₂ : List Task) (i : ℕ) (h : i ∉ ids l₂) :
    taskOf (l₁ ++ l₂) i = taskOf l₁ i := by
  have := statusOf_append_left l₁ l₂ i h
  induction l₁ with
  | nil =>
    rw [List.nil_append]
    cases hz : taskOf l₂ i with
    | none => rfl
    | some u =>
      exfalso
      have hmem : u ∈ l₂ := List.mem_of_find?_eq_some hz
      have hui : u.id = i := by
        have := List.find?_some hz
        simpa using this
      exact h (hui ▸ List.mem_map_of_mem (·.id) hmem)
  | cons t tl ih =>
    simp only [taskOf, List.cons_append]
    by_cases ht : t.id = i
    · rw [List.find?_cons_of_pos _ (by simp [ht]), List.find?_cons_of_pos _ (by simp [ht])]
    · rw [List.find?_cons_of_neg _ (by simp [ht]), List.find?_cons_of_neg _ (by simp [ht])]
      exact ih (statusOf_append_left tl l₂ i h)

/-- Properties of the first WAITING task: it waits, and everything before it in queue
order does not (the FIFO discipline of checkQueue). -/
theorem firstWaiting_decomp {l : List Task} {w : Task} (h : firstWaiting l = some w) :
    w.status = TaskStatus.WAITING ∧
    ∃ l₁ l₂, l = l₁ ++ w :: l₂ ∧ ∀ u ∈ l₁, u.status ≠ TaskStatus.WAITING := by
  induction l with
  | nil => simp [firstWaiting] at h
  | cons t tl ih =>
    by_cases ht : t.status = TaskStatus.WAITING
    · unfold firstWaiting at h
      rw [List.find?_cons_of_pos _ (by simp [ht])] at h
      injection h with h₂
      subst h₂
      exact ⟨ht, [], tl, rfl, by simp⟩
    · unfold firstWaiting at h
      rw [List.find?_cons_of_neg _ (by simp [ht])] at h
      obtain ⟨hw, l₁, l₂, heq, hall⟩ := ih h
      refine ⟨hw, t :: l₁, l₂, by rw [List.cons_append, heq], ?_⟩
      intro u hu
      rcases List.mem_cons.1 hu with rfl | hu₂
      · exact ht
      · exact hall u hu₂

theorem tickAction_start_of {limit : ℕ} {s : OrchState} {w : Task}
    (hr : s.running = true) (hlt : countProcessing s.snap < limit)
    (hfw : firstWaiting s.snap = some w) : tickAction limit s = .start w := by
  unfold tickAction
  rw [hfw, if_pos hr, if_pos hlt]

theorem tickAction_stop_of {limit : ℕ} {s : OrchState}
    (hr : s.running = true) (hlim : 0 < limit)
    (hfw : firstWaiting s.snap = none) (hzero : countProcessing s.snap = 0) :
    tickAction limit s = .stop := by
  have hall : s.snap.all (fun t => !(decide (t.status = TaskStatus.WAITING))) = true := by
    rw [List.all_eq_true]
    intro t ht
    have := List.find?_eq_none.1 hfw t ht
    simpa using this
  unfold tickAction
  rw [hfw, if_pos hr, if_pos (by rw [hzero]; exact hlim), if_pos ⟨hzero, hall⟩]

/-- Claim C1: in every reachable orchestrator state, for every configured concurrency
of at least one, the number of PROCESSING tasks in the queue never exceeds the
concurrency — including while tasks complete concurrently and checkQueue runs on the
1-second interval against the queueRef snapshot, which may lag arbitrarily behind the
queue. -/
theorem c1_processing_le_concurrency (limit : ℕ) (s : OrchState)
    (hconc : 1 ≤ limit) (hreach : Reachable limit s) :
    countProcessing s.queue ≤ limit :=
  (Inv_reachable hreach).1

/-! Concrete executions used below.  One link is added, the orchestrator started and
the snapshot synchronised; the first tick starts the task; the crawl then settles
(successfully or with a navigation timeout) before the snapshot is synchronised again,
so the next interval tick still sees the task as WAITING and restarts it. -/

/-- Link added by the concrete traces. -/
def traceSpec : NewTask := { id := 1, url := "https://example.com/hotel", now := 0 }

/-- Hotel record produced by the successful crawl of the concrete traces. -/
def traceHotel : HotelData :=
  { name := "Grand Hotel", address := "1 Sea Road", rating := mkRat 93 10, images := [] }

/-- Trace state: the link has been added. -/
def trA : OrchState := applyAdd initState [traceSpec]

/-- Trace state: the operator pressed start. -/
def trB : OrchState := { trA with running := true }

/-- Trace state: the queueRef snapshot has been synchronised. -/
def trC : OrchState := { trB with snap := trB.queue }

/-- Trace state: the first tick started task 1. -/
def trD : OrchState := applyTick 1 trC

/-- Trace state: the crawl succeeded, task 1 is COMPLETED with its result. -/
def trE : OrchState := applyComplete trD 1 (.ok traceHotel 5)

/-- Trace state: a stale-snapshot tick restarted the COMPLETED task 1. -/
def trF : OrchState := applyTick 1 trE

/-- Trace state: the crawl threw a navigation timeout, task 1 is ERROR. -/
def trE2 : OrchState := applyComplete trD 1 (.fail "Navigation timeout" 5)

/-- Trace state: a stale-snapshot tick restarted the ERROR task 1. -/
def trF2 : OrchState := applyTick 1 trE2

theorem trD_reachable : Reachable 1 trD :=
  Relation.ReflTransGen.tail (Relation.ReflTransGen.tail (Relation.ReflTransGen.tail
    (Relation.ReflTransGen.single
      ⟨_, StepL.addLinks initState [traceSpec] ⟨by decide, by decide⟩⟩)
    ⟨_, StepL.setRunning trA true⟩)
    ⟨_, StepL.sync trB⟩)
    ⟨_, StepL.tick trC⟩

theorem trE_reachable : Reachable 1 trE :=
  Relation.ReflTransGen.tail trD_reachable
    ⟨_, StepL.complete trD 1 (.ok traceHotel 5) (by decide)⟩

theorem trF_reachable : Reachable 1 trF :=
  Relation.ReflTransGen.tail trE_reachable ⟨_, StepL.tick trE⟩

theorem trE2_reachable : Reachable 1 trE2 :=
  Relation.ReflTransGen.tail trD_reachable
    ⟨_, StepL.complete trD 1 (.fail "Navigation timeout" 5) (by decide)⟩

/-- Claim C1 witness: the bound instantiated on the concrete reachable state trD. -/
theorem c1_processing_le_concurrency_witness : countProcessing trD.queue ≤ 1 :=
  c1_processing_le_concurrency 1 trD (by decide) trD_reachable

/-- Claim C2 counterexample: a reachable state in which the single task is PROCESSING
while its result from the earlier completion is still set, refuting the claimed
equivalences between result/error presence and the terminal statuses. -/
theorem c2_counterexample :
    Reachable 1 trF ∧
      ¬ ∀ t ∈ trF.queue,
        (t.result.isSome ↔ t.status = TaskStatus.COMPLETED) ∧
        (t.error.isSome ↔ t.status = TaskStatus.ERROR) :=
  ⟨trF_reachable, by decide⟩

/-- Claim C3 counterexample: task 1 is ERROR in the reachable state trE2, and a plain
scheduler tick (no operator reset) moves it back to PROCESSING: the failed task is
retried automatically from the stale snapshot. -/
theorem c3_counterexample :
    Reachable 1 trE2 ∧ StepL 1 Label.tick trE2 trF2 ∧
      statusOf trE2.queue 1 = some TaskStatus.ERROR ∧
      statusOf trF2.queue 1 = some TaskStatus.PROCESSING :=
  ⟨trE2_reachable, StepL.tick trE2, by decide, by decide⟩

/-- Claim C4 counterexample: task 1 is COMPLETED in the reachable state trE, and a
plain scheduler tick (not a reset) moves it back to PROCESSING — a backward transition
of the task state machine not performed by the reset operation. -/
theorem c4_counterexample :
    Reachable 1 trE ∧ StepL 1 Label.tick trE trF ∧
      statusOf trE.queue 1 = some TaskStatus.COMPLETED ∧
      statusOf trF.queue 1 = some TaskStatus.PROCESSING :=
  ⟨trE_reachable, StepL.tick trE, by decide, by decide⟩

/-! Invariant of synced executions, for the amended forms of claims C2, C3 and C4. -/

/-- Shape of the result and error fields relative to the status. -/
def TaskOK (t : Task) : Prop :=
  match t.status with
  | .IDLE => t.result = none ∧ t.error = none
  | .WAITING => t.result = none ∧ t.error = none
  | .PROCESSING => t.result = none ∧ t.error = none
  | .COMPLETED => t.result.isSome ∧ t.error = none
  | .ERROR => t.error.isSome ∧ t.result = none

/-- Invariant preserved by synced executions: every task is well shaped, every
in-flight execution belongs to a PROCESSING task, in-flight ids are unique and queue
ids are unique. -/
def SInv (s : OrchState) : Prop :=
  (∀ t ∈ s.queue, TaskOK t) ∧
  (∀ i ∈ s.inflight, statusOf s.queue i = some TaskStatus.PROCESSING) ∧
  s.inflight.Nodup ∧
  (ids s.queue).Nodup

theorem mem_mapById {l : List Task} {i : ℕ} {f : Task → Task} {u : Task}
    (h : u ∈ mapById l i f) : ∃ t ∈ l, u = if t.id = i then f t else t := by
  obtain ⟨t, ht, heq⟩ := List.mem_map.1 h
  exact ⟨t, ht, heq.symm⟩

theorem firstWaiting_mem {l : List Task} {w : Task} (h : firstWaiting l = some w) :
    w ∈ l :=
  List.mem_of_find?_eq_some h

theorem firstWaiting_status {l : List Task} {w : Task} (h : firstWaiting l = some w) :
    w.status = TaskStatus.WAITING := by
  have := List.find?_some h
  simpa using this

theorem status_eq_of_mem_nodup {l : List Task} {t : Task} {st : TaskStatus}
    (hn : (ids l).Nodup) (hm : t ∈ l) (hs : statusOf l t.id = some st) :
    t.status = st := by
  exact Option.some.inj ((statusOf_of_mem_nodup hn hm).symm.trans hs)

theorem SInv_initState : SInv initState :=
  ⟨by intro t ht; simp [initState] at ht, by intro i hi; simp [initState] at hi,
    List.nodup_nil, List.nodup_nil⟩

theorem SInv_step {limit : ℕ} {l : Label} {s s₂ : OrchState}
    (hstep : StepL limit l s s₂) (hsync : l = Label.tick → s.snap = s.queue)
    (hS : SInv s) : SInv s₂ := by
  obtain ⟨hok, hinfl, hinfln, hn⟩ := hS
  cases hstep with
  | tick =>
    show SInv (applyTick limit s)
    unfold applyTick
    cases hact : tickAction limit s with
    | stop => exact ⟨hok, hinfl, hinfln, hn⟩
    | skip => exact ⟨hok, hinfl, hinfln, hn⟩
    | start w =>
      obtain ⟨hr, hlt, hfw⟩ := tickAction_eq_start hact
      rw [hsync rfl] at hfw
      have hwmem : w ∈ s.queue := firstWaiting_mem hfw
      have hwst : w.status = TaskStatus.WAITING := firstWaiting_status hfw
      have hwstat : statusOf s.queue w.id = some TaskStatus.WAITING := by
        rw [statusOf_of_mem_nodup hn hwmem, hwst]
      have hwnotin : w.id ∉ s.inflight := by
        intro hmem
        have h2 := hinfl w.id hmem
        rw [hwstat] at h2
        simp at h2
      show SInv (applyStart s w)
      refine ⟨?_, ?_, ?_, ?_⟩
      · intro u hu
        obtain ⟨t, ht, hut⟩ := mem_mapById hu
        by_cases hti : t.id = w.id
        · rw [if_pos hti] at hut
          have htst : t.status = TaskStatus.WAITING := by
            apply status_eq_of_mem_nodup hn ht
            rw [hti]
            exact hwstat
          have hold := hok t ht
          simp only [TaskOK, htst] at hold
          rw [hut]
          simp only [TaskOK, startTask]
          exact ⟨hold.1, hold.2⟩
        · rw [if_neg hti] at hut
          rw [hut]
          exact hok t ht
      · intro i hi
        rcases List.mem_cons.1 hi with rfl | hi₂
        · show statusOf (mapById s.queue w.id startTask) w.id = some TaskStatus.PROCESSING
          rw [statusOf_mapById_self_general s.queue w.id startTask startTask_id]
          have hiss : (statusOf s.queue w.id).isSome := by rw [hwstat]; rfl
          unfold statusOf at hiss
          cases ht : taskOf s.queue w.id with
          | none => rw [ht] at hiss; simp at hiss
          | some u => simp [startTask_status]
        · have hne : i ≠ w.id := fun hh => hwnotin (hh ▸ hi₂)
          show statusOf (mapById s.queue w.id startTask) i = some TaskStatus.PROCESSING
          rw [statusOf_mapById_ne s.queue w.id i startTask startTask_id hne]
          exact hinfl i hi₂
      · exact List.Nodup.cons hwnotin hinfln
      · show (ids (mapById s.queue w.id startTask)).Nodup
        rw [ids_mapById s.queue w.id startTask startTask_id]
        exact hn
  | sync =>
    exact ⟨hok, hinfl, hinfln, hn⟩
  | complete _ i oc hmem =>
    have histat : statusOf s.queue i = some TaskStatus.PROCESSING := hinfl i hmem
    refine ⟨?_, ?_, List.Nodup.erase i hinfln, ?_⟩
    · intro u hu
      obtain ⟨t, ht, hut⟩ := mem_mapById hu
      by_cases hti : t.id = i
      · rw [if_pos hti] at hut
        have htst : t.status = TaskStatus.PROCESSING := by
          apply status_eq_of_mem_nodup hn ht
          rw [hti]
          exact histat
        have hold := hok t ht
        simp only [TaskOK, htst] at hold
        rw [hut]
        cases oc with
        | ok r now => simp [TaskOK, finishTask, hold.2]
        | fail msg now => simp [TaskOK, finishTask, hold.1]
      · rw [if_neg hti] at hut
        rw [hut]
        exact hok t ht
    · intro j hj
      have hj₂ := (List.Nodup.mem_erase_iff hinfln).1 hj
      have hne : j ≠ i := hj₂.1
      show statusOf (mapById s.queue i (finishTask oc)) j = some TaskStatus.PROCESSING
      rw [statusOf_mapById_ne s.queue i j (finishTask oc) (finishTask_id oc) hne]
      exact hinfl j hj₂.2
    · show (ids (mapById s.queue i (finishTask oc))).Nodup
      rw [ids_mapById s.queue i (finishTask oc) (finishTask_id oc)]
      exact hn
  | reset _ i st hst hterm =>
    refine ⟨?_, ?_, hinfln, ?_⟩
    · intro u hu
      obtain ⟨t, ht, hut⟩ := mem_mapById hu
      by_cases hti : t.id = i
      · rw [if_pos hti] at hut
        rw [hut]
        simp [TaskOK, resetTask]
      · rw [if_neg hti] at hut
        rw [hut]
        exact hok t ht
    · intro j hj
      have hne : j ≠ i := by
        intro hh
        have h2 := hinfl j hj
        rw [hh, hst] at h2
        rcases hterm with h₃ | h₃ <;> rw [h₃] at h2 <;> simp at h2
      show statusOf (mapById s.queue i resetTask) j = some TaskStatus.PROCESSING
      rw [statusOf_mapById_ne s.queue i j resetTask (fun t => resetTask_id t) hne]
      exact hinfl j hj
    · show (ids (mapById s.queue i resetTask)).Nodup
      rw [ids_mapById s.queue i resetTask (fun t => resetTask_id t)]
      exact hn
  | addLinks _ specs hfresh =>
    refine ⟨?_, ?_, hinfln, ?_⟩
    · intro u hu
      rcases List.mem_append.1 hu with hu₁ | hu₂
      · exact hok u hu₁
      · obtain ⟨sp, hsp, hspu⟩ := List.mem_map.1 hu₂
        rw [← hspu]
        simp [TaskOK, mkTask]
    · intro j hj
      have hjs := hinfl j hj
      have hjq : j ∈ ids s.queue := by
        apply (statusOf_isSome_iff s.queue j).1
        rw [hjs]
        rfl
      have hnotnew : j ∉ ids (specs.map mkTask) := by
        rw [ids_mkTask]
        intro hmem
        exact (hfresh.2 j hmem).1 hjq
      show statusOf (s.queue ++ specs.map mkTask) j = some TaskStatus.PROCESSING
      rw [statusOf_append_left s.queue (specs.map mkTask) j hnotnew]
      exact hjs
    · show (ids (s.queue ++ specs.map mkTask)).Nodup
      rw [ids_append, List.nodup_append]
      refine ⟨hn, ?_, ?_⟩
      · rw [ids_mkTask]; exact hfresh.1
      · intro a ha hb
        rw [ids_mkTask] at hb
        exact (hfresh.2 a hb).1 ha
  | setRunning _ b =>
    exact ⟨hok, hinfl, hinfln, hn⟩

theorem SInv_reachable {limit : ℕ} {s : OrchState} (h : SyncedReachable limit s) :
    SInv s := by
  induction h with
  | refl => exact SInv_initState
  | tail hchain hstep ih =>
    obtain ⟨l, hl, hcond⟩ := hstep
    exact SInv_step hl hcond ih

/-- Claim C2 (amended): result is set exactly on the transition into COMPLETED and
error exactly on the transition into ERROR, so in every state reachable while each
checkQueue invocation runs against an up-to-date queueRef snapshot, result is set iff
the task is COMPLETED and error is set iff it is ERROR; a stale-snapshot tick can
additionally restart a finished task, leaving the old result or error set on a
PROCESSING task. -/
theorem c2_result_error_iff_synced (limit : ℕ) (s : OrchState)
    (h : SyncedReachable limit s) :
    ∀ t ∈ s.queue,
      (t.result.isSome ↔ t.status = TaskStatus.COMPLETED) ∧
      (t.error.isSome ↔ t.status = TaskStatus.ERROR) := by
  obtain ⟨hok, -, -, -⟩ := SInv_reachable h
  intro t ht
  have hT := hok t ht
  cases hst : t.status <;> simp only [TaskOK, hst] at hT <;>
    simp [hst, hT.1, hT.2]

/-- Synced run of the successful trace: every checkQueue invocation saw an up-to-date
snapshot on the way to the COMPLETED state trE. -/
theorem trE_synced_reachable : SyncedReachable 1 trE :=
  Relation.ReflTransGen.tail (Relation.ReflTransGen.tail (Relation.ReflTransGen.tail
    (Relation.ReflTransGen.tail (Relation.ReflTransGen.single
      ⟨_, StepL.addLinks initState [traceSpec] ⟨by decide, by decide⟩,
        fun h => absurd h (by decide)⟩)
      ⟨_, StepL.setRunning trA true, fun h => absurd h (by decide)⟩)
      ⟨_, StepL.sync trB, fun h => absurd h (by decide)⟩)
      ⟨_, StepL.tick trC, fun _ => rfl⟩)
      ⟨_, StepL.complete trD 1 (.ok traceHotel 5) (by decide), fun h => absurd h (by decide)⟩

/-- Task 1 as it stands in the synced reachable state trE: started and completed. -/
def taskC2 : Task := finishTask (Outcome.ok traceHotel 5) (startTask (mkTask traceSpec))

/-- Claim C2 witness: the amended equivalence instantiated on the COMPLETED task of
the synced reachable state trE. -/
theorem c2_result_error_iff_synced_witness :
    (taskC2.result.isSome ↔ taskC2.status = TaskStatus.COMPLETED) ∧
    (taskC2.error.isSome ↔ taskC2.status = TaskStatus.ERROR) :=
  c2_result_error_iff_synced 1 trE trE_synced_reachable taskC2 (by decide)

/-- Claim C3 (amended): a crawl failure is caught at the task boundary — the finishing
update moves the task to ERROR, records the thrown message as its error, leaves the
result field untouched (so still undefined when the task had none), decrements the
active-task count by exactly one and consumes exactly one in-flight execution; and as
long as every checkQueue invocation runs against an up-to-date snapshot, the only step
that takes a task out of ERROR is the operator reset, which returns it to WAITING —
with a stale snapshot, however, the scheduler itself can restart the failed task. -/
theorem c3_error_isolation (limit : ℕ) :
    (∀ (s : OrchState) (i : ℕ) (msg : String) (now : ℕ) (st : TaskStatus),
      (ids s.queue).Nodup →
      statusOf s.queue i = some st →
      resultOf s.queue i = some none →
      statusOf (applyComplete s i (.fail msg now)).queue i = some TaskStatus.ERROR ∧
      errorOf (applyComplete s i (.fail msg now)).queue i = some (some msg) ∧
      resultOf (applyComplete s i (.fail msg now)).queue i = some none ∧
      (applyComplete s i (.fail msg now)).activeTaskCount = s.activeTaskCount - 1 ∧
      (applyComplete s i (.fail msg now)).inflight = s.inflight.erase i) ∧
    (∀ (l : Label) (s s₂ : OrchState) (j : ℕ),
      SyncedReachable limit s →
      StepL limit l s s₂ →
      (l = Label.tick → s.snap = s.queue) →
      statusOf s.queue j = some TaskStatus.ERROR →
      statusOf s₂.queue j ≠ some TaskStatus.ERROR →
      l = Label.reset j ∧ statusOf s₂.queue j = some TaskStatus.WAITING) := by
  constructor
  · intro s i msg now st hn hstat hres
    have htask : ∃ u, taskOf s.queue i = some u := by
      unfold statusOf at hstat
      cases ht : taskOf s.queue i with
      | none => rw [ht] at hstat; simp at hstat
      | some u => exact ⟨u, rfl⟩
    obtain ⟨u, hu⟩ := htask
    have hures : u.result = none := by
      unfold resultOf at hres
      rw [hu] at hres
      simpa using hres
    have hmap := taskOf_mapById_self s.queue i (finishTask (.fail msg now))
      (finishTask_id (.fail msg now))
    rw [hu] at hmap
    refine ⟨?_, ?_, ?_, rfl, rfl⟩
    · show statusOf (mapById s.queue i (finishTask (.fail msg now))) i = _
      unfold statusOf
      rw [hmap]
      rfl
    · show errorOf (mapById s.queue i (finishTask (.fail msg now))) i = _
      unfold errorOf
      rw [hmap]
      rfl
    · show resultOf (mapById s.queue i (finishTask (.fail msg now))) i = _
      unfold resultOf
      rw [hmap]
      simp [finishTask, hures]
  · intro l s s₂ j hreach hstep hcond hjE hjchange
    obtain ⟨hok, hinfl, hinfln, hn⟩ := SInv_reachable hreach
    cases hstep with
    | tick =>
      exfalso
      apply hjchange
      show statusOf (applyTick limit s).queue j = some TaskStatus.ERROR
      unfold applyTick
      cases hact : tickAction limit s with
      | stop => exact hjE
      | skip => exact hjE
      | start w =>
        obtain ⟨hr, hlt, hfw⟩ := tickAction_eq_start hact
        rw [hcond rfl] at hfw
        have hwstat : statusOf s.queue w.id = some TaskStatus.WAITING := by
          rw [statusOf_of_mem_nodup hn (firstWaiting_mem hfw), firstWaiting_status hfw]
        have hne : j ≠ w.id := by
          intro hh
          rw [hh, hwstat] at hjE
          simp at hjE
        show statusOf (mapById s.queue w.id startTask) j = some TaskStatus.ERROR
        rw [statusOf_mapById_ne s.queue w.id j startTask startTask_id hne]
        exact hjE
    | sync => exact absurd hjE hjchange
    | setRunning _ b => exact absurd hjE hjchange
    | complete _ i oc hmem =>
      exfalso
      have histat := hinfl i hmem
      have hne : j ≠ i := by
        intro hh
        rw [hh, histat] at hjE
        simp at hjE
      apply hjchange
      show statusOf (mapById s.queue i (finishTask oc)) j = some TaskStatus.ERROR
      rw [statusOf_mapById_ne s.queue i j (finishTask oc) (finishTask_id oc) hne]
      exact hjE
    | reset _ i st hst hterm =>
      by_cases hij : j = i
      · refine ⟨by rw [hij], ?_⟩
        rw [hij] at hjE ⊢
        show statusOf (mapById s.queue i resetTask) i = some TaskStatus.WAITING
        rw [statusOf_mapById_self_general s.queue i resetTask (fun t => resetTask_id t)]
        unfold statusOf at hjE
        cases ht : taskOf s.queue i with
        | none => rw [ht] at hjE; simp at hjE
        | some u => simp [resetTask]
      · exfalso
        apply hjchange
        show statusOf (mapById s.queue i resetTask) j = some TaskStatus.ERROR
        rw [statusOf_mapById_ne s.queue i j resetTask (fun t => resetTask_id t) hij]
        exact hjE
    | addLinks _ specs hfresh =>
      exfalso
      apply hjchange
      have hjq : j ∈ ids s.queue :=
        (statusOf_isSome_iff s.queue j).1 (by rw [hjE]; rfl)
      have hnotnew : j ∉ ids (specs.map mkTask) := by
        rw [ids_mkTask]
        intro hmem
        exact (hfresh.2 j hmem).1 hjq
      show statusOf (s.queue ++ specs.map mkTask) j = some TaskStatus.ERROR
      rw [statusOf_append_left s.queue (specs.map mkTask) j hnotnew]
      exact hjE

/-- Claim C3 witness: the boundary behaviour instantiated on the concrete state trD,
whose task 1 is PROCESSING with no result, failing with a navigation timeout. -/
theorem c3_error_isolation_witness :
    statusOf (applyComplete trD 1 (.fail "Navigation timeout" 5)).queue 1 =
      some TaskStatus.ERROR ∧
    errorOf (applyComplete trD 1 (.fail "Navigation timeout" 5)).queue 1 =
      some (some "Navigation timeout") ∧
    resultOf (applyComplete trD 1 (.fail "Navigation timeout" 5)).queue 1 = some none ∧
    (applyComplete trD 1 (.fail "Navigation timeout" 5)).activeTaskCount =
      trD.activeTaskCount - 1 ∧
    (applyComplete trD 1 (.fail "Navigation timeout" 5)).inflight = trD.inflight.erase 1 :=
  (c3_error_isolation 1).1 trD 1 "Navigation timeout" 5 TaskStatus.PROCESSING
    (by decide) (by decide) (by decide)

/-- Rank of a status in the forward order of the task state machine
IDLE, WAITING, PROCESSING, then the two terminal states. -/
def statusRank : TaskStatus → ℕ
  | .IDLE => 0
  | .WAITING => 1
  | .PROCESSING => 2
  | .COMPLETED => 3
  | .ERROR => 3

theorem statusRank_le_three (st : TaskStatus) : statusRank st ≤ 3 := by
  cases st <;> simp [statusRank]

/-- Claim C4 (amended): resetting a COMPLETED or ERROR task yields WAITING with
result, error and finishedAt cleared and progress zero, while id, url, createdAt and
the logs are unchanged; and as long as ticks run against an up-to-date snapshot, the
reset is the only backward transition of the task state machine — under a stale
snapshot the scheduler itself can also move a finished task back to PROCESSING. -/
theorem c4_reset_only_backward (limit : ℕ) :
    (∀ t : Task, t.status = TaskStatus.COMPLETED ∨ t.status = TaskStatus.ERROR →
      (resetTask t).status = TaskStatus.WAITING ∧ (resetTask t).result = none ∧
      (resetTask t).error = none ∧ (resetTask t).progress = 0 ∧
      (resetTask t).finishedAt = none ∧ (resetTask t).id = t.id ∧
      (resetTask t).url = t.url ∧ (resetTask t).createdAt = t.createdAt ∧
      (resetTask t).logs = t.logs) ∧
    (∀ (l : Label) (s s₂ : OrchState) (j : ℕ) (st st₂ : TaskStatus),
      StepL limit l s s₂ →
      (l = Label.tick → s.snap = s.queue) →
      (ids s.queue).Nodup →
      statusOf s.queue j = some st →
      statusOf s₂.queue j = some st₂ →
      statusRank st₂ < statusRank st →
      l = Label.reset j ∧ st₂ = TaskStatus.WAITING) := by
  constructor
  · intro t _
    exact ⟨rfl, rfl, rfl, rfl, rfl, rfl, rfl, rfl, rfl⟩
  · intro l s s₂ j st st₂ hstep hcond hn hjst hjst₂ hlt
    cases hstep with
    | tick =>
      exfalso
      have hq : statusOf (applyTick limit s).queue j = some st₂ := hjst₂
      unfold applyTick at hq
      revert hq
      cases hact : tickAction limit s with
      | stop =>
        intro hq
        rw [hjst] at hq
        injection hq with h₂
        subst h₂
        exact absurd hlt (by omega)
      | skip =>
        intro hq
        rw [hjst] at hq
        injection hq with h₂
        subst h₂
        exact absurd hlt (by omega)
      | start w =>
        intro hq
        obtain ⟨hr, hltc, hfw⟩ := tickAction_eq_start hact
        rw [hcond rfl] at hfw
        have hwstat : statusOf s.queue w.id = some TaskStatus.WAITING := by
          rw [statusOf_of_mem_nodup hn (firstWaiting_mem hfw), firstWaiting_status hfw]
        by_cases hjw : j = w.id
        · have hstW : st = TaskStatus.WAITING := by
            rw [hjw, hwstat] at hjst
            exact (Option.some.inj hjst).symm
          have hq₂ : statusOf (mapById s.queue w.id startTask) j = some st₂ := hq
          rw [hjw, statusOf_mapById_self_general s.queue w.id startTask startTask_id] at hq₂
          unfold statusOf at hwstat
          revert hwstat hq₂
          cases ht : taskOf s.queue w.id with
          | none => intro hwstat hq₂; simp at hwstat
          | some u =>
            intro hwstat hq₂
            have hst₂P : st₂ = TaskStatus.PROCESSING := by
              have h₂ : some (startTask u).status = some st₂ := hq₂
              exact (Option.some.inj h₂).symm
            rw [hstW, hst₂P] at hlt
            exact absurd hlt (by simp [statusRank])
        · have hq₂ : statusOf (mapById s.queue w.id startTask) j = some st₂ := hq
          rw [statusOf_mapById_ne s.queue w.id j startTask startTask_id hjw, hjst] at hq₂
          injection hq₂ with h₂
          subst h₂
          exact absurd hlt (by omega)
    | sync =>
      have : st₂ = st := by
        have hq : statusOf s.queue j = some st₂ := hjst₂
        rw [hjst] at hq
        exact (Option.some.inj hq).symm
      subst this
      exact absurd hlt (by omega)
    | setRunning _ b =>
      have : st₂ = st := by
        have hq : statusOf s.queue j = some st₂ := hjst₂
        rw [hjst] at hq
        exact (Option.some.inj hq).symm
      subst this
      exact absurd hlt (by omega)
    | complete _ i oc hmem =>
      exfalso
      have hq : statusOf (mapById s.queue i (finishTask oc)) j = some st₂ := hjst₂
      by_cases hij : j = i
      · rw [hij, statusOf_mapById_self_general s.queue i (finishTask oc)
          (finishTask_id oc)] at hq
        cases ht : taskOf s.queue i with
        | none => rw [ht] at hq; simp at hq
        | some u =>
          rw [ht] at hq
          have h₂ : some (finishTask oc u).status = some st₂ := hq
          have hst₂ : st₂ = (finishTask oc u).status := (Option.some.inj h₂).symm
          have hrank : statusRank st₂ = 3 := by
            rw [hst₂]
            cases oc <;> simp [finishTask, statusRank]
          have := statusRank_le_three st
          omega
      · rw [statusOf_mapById_ne s.queue i j (finishTask oc) (finishTask_id oc) hij,
          hjst] at hq
        injection hq with h₂
        subst h₂
        exact absurd hlt (by omega)
    | reset _ i st' hst hterm =>
      by_cases hij : j = i
      · refine ⟨by rw [hij], ?_⟩
        have hq : statusOf (mapById s.queue i resetTask) j = some st₂ := hjst₂
        rw [hij, statusOf_mapById_self_general s.queue i resetTask
          (fun t => resetTask_id t)] at hq
        cases ht : taskOf s.queue i with
        | none => rw [ht] at hq; simp at hq
        | some u =>
          rw [ht] at hq
          have h₂ : some (resetTask u).status = some st₂ := hq
          have : st₂ = (resetTask u).status := (Option.some.inj h₂).symm
          rw [this]
          rfl
      · exfalso
        have hq : statusOf (mapById s.queue i resetTask) j = some st₂ := hjst₂
        rw [statusOf_mapById_ne s.queue i j resetTask (fun t => resetTask_id t) hij,
          hjst] at hq
        injection hq with h₂
        subst h₂
        exact absurd hlt (by omega)
    | addLinks _ specs hfresh =>
      exfalso
      have hjq : j ∈ ids s.queue :=
        (statusOf_isSome_iff s.queue j).1 (by rw [hjst]; rfl)
      have hnotnew : j ∉ ids (specs.map mkTask) := by
        rw [ids_mkTask]
        intro hmem
        exact (hfresh.2 j hmem).1 hjq
      have hq : statusOf (s.queue ++ specs.map mkTask) j = some st₂ := hjst₂
      rw [statusOf_append_left s.queue (specs.map mkTask) j hnotnew, hjst] at hq
      injection hq with h₂
      subst h₂
      exact absurd hlt (by omega)

/-- Concrete COMPLETED task used to instantiate the reset effect. -/
def cTask : Task :=
  { id := 7, url := "https://example.com/h", status := TaskStatus.COMPLETED,
    progress := 100, logs := ["Starting task"], result := some traceHotel,
    error := none, createdAt := 0, finishedAt := some 9 }

/-- Claim C4 witness: the reset effect instantiated on a concrete COMPLETED task. -/
theorem c4_reset_only_backward_witness :
    (resetTask cTask).status = TaskStatus.WAITING ∧ (resetTask cTask).result = none ∧
    (resetTask cTask).error = none ∧ (resetTask cTask).progress = 0 ∧
    (resetTask cTask).finishedAt = none ∧ (resetTask cTask).id = cTask.id ∧
    (resetTask cTask).url = cTask.url ∧ (resetTask cTask).createdAt = cTask.createdAt ∧
    (resetTask cTask).logs = cTask.logs :=
  (c4_reset_only_backward 1).1 cTask (Or.inl rfl)

/-- Claim C5: on a scheduling tick while the orchestrator is running, if the
PROCESSING count of the snapshot is below the concurrency ceiling, the earliest
WAITING task in queue order is started (everything before it in the snapshot is not
WAITING, and the tick performs exactly the start effect on it); and if no WAITING
task exists and zero tasks are PROCESSING, the tick sets the orchestrator to stopped
and emits the completion log event. -/
theorem c5_fifo_start_and_stop (limit : ℕ) (s : OrchState)
    (hrun : s.running = true) (hlt : countProcessing s.snap < limit) :
    (∀ w, firstWaiting s.snap = some w →
      applyTick limit s = applyStart s w ∧
      w.status = TaskStatus.WAITING ∧
      (∃ l₁ l₂, s.snap = l₁ ++ w :: l₂ ∧ ∀ u ∈ l₁, u.status ≠ TaskStatus.WAITING)) ∧
    (firstWaiting s.snap = none → countProcessing s.snap = 0 →
      applyTick limit s =
        { s with running := false,
                 globalLogs := pushGlobal s.globalLogs "Queue processing finished." }) := by
  constructor
  · intro w hfw
    obtain ⟨hwst, l₁, l₂, hdecomp, hall⟩ := firstWaiting_decomp hfw
    refine ⟨?_, hwst, l₁, l₂, hdecomp, hall⟩
    unfold applyTick
    rw [tickAction_start_of hrun hlt hfw]
  · intro hfw hzero
    unfold applyTick
    rw [tickAction_stop_of hrun (by omega) hfw hzero]

/-- Claim C5 witness: on the concrete state trC (one WAITING task, snapshot in sync,
running), the tick performs exactly the start of the added task. -/
theorem c5_fifo_start_and_stop_witness :
    applyTick 1 trC = applyStart trC (mkTask traceSpec) :=
  (((c5_fifo_start_and_stop 1 trC rfl (by decide)).1 (mkTask traceSpec)) (by decide)).1

/-! Claims C7 and C8: the rating resolver thresholds and the name/address cascade. -/

/-- DOM rating evaluation with a numeric score and no category label. -/
def domC7 : RatingResult := { score := some (mkRat 93 10), reviewCount := some 271 }

/-- Claim C7 counterexample: the resolver obtains the numeric score 9.3 from the DOM
(no structured-data rating present) and extracts no category label, yet the resulting
category is null rather than the threshold-derived "Excellent". -/
theorem c7_counterexample :
    (getRating none domC7).score = some (mkRat 93 10) ∧
    (getRating none domC7).category = none := by
  constructor <;> decide

/-- Every threshold-derived category label is a nonempty string. -/
theorem categoryFromScore_ne_empty (q : ℚ) : categoryFromScore q ≠ "" := by
  unfold categoryFromScore
  by_cases h9 : (9 : ℚ) ≤ q
  · simp [h9]
  · by_cases h8 : (8 : ℚ) ≤ q
    · simp [h9, h8]
    · by_cases h7 : (7 : ℚ) ≤ q
      · simp [h9, h8, h7]
      · by_cases h6 : (6 : ℚ) ≤ q
        · simp [h9, h8, h7, h6]
        · simp [h9, h8, h7, h6]

/-- When the schema carries a truthy ratingValue parsing to a nonzero number, the
schema phase records that score and the threshold-derived category. -/
theorem ratingFromSchema_of_score {sd : SchemaData} {agg : AggregateRating}
    {v : String} {q : ℚ} (hagg : sd.aggregateRating = some agg)
    (hval : agg.ratingValue = some v) (hvne : v ≠ "")
    (hparse : jsParseFloat v = some q) (hqne : q ≠ 0) :
    (ratingFromSchema (some sd)).score = some q ∧
    (ratingFromSchema (some sd)).category = some (categoryFromScore q) := by
  simp [ratingFromSchema, hagg, hval, hvne, hparse, hqne]

/-- Claim C7 (amended): the fixed thresholds (at least 9 "Excellent", 8 "Very Good",
7 "Good", 6 "Pleasant", else "Fair") derive the category whenever the numeric score
was obtained from the structured data (truthy ratingValue parsing to a nonzero
number) — regardless of any category label; in particular ratingValue "9.3" yields
"Excellent" and "7.5" yields "Good" (witness).  A score obtained only from the DOM
triggers no threshold derivation: with no category label extracted, the category
stays null. -/
theorem c7_rating_thresholds :
    (∀ (sd : SchemaData) (agg : AggregateRating) (v : String) (q : ℚ)
        (dom : RatingResult),
      sd.aggregateRating = some agg → agg.ratingValue = some v → v ≠ "" →
      jsParseFloat v = some q → q ≠ 0 →
      (getRating (some sd) dom).category = some (categoryFromScore q)) ∧
    (∀ q : ℚ, 9 ≤ q → categoryFromScore q = "Excellent") ∧
    (∀ q : ℚ, 8 ≤ q → q < 9 → categoryFromScore q = "Very Good") ∧
    (∀ q : ℚ, 7 ≤ q → q < 8 → categoryFromScore q = "Good") ∧
    (∀ q : ℚ, 6 ≤ q → q < 7 → categoryFromScore q = "Pleasant") ∧
    (∀ q : ℚ, q < 6 → categoryFromScore q = "Fair") ∧
    (∀ dom : RatingResult, dom.category = none →
      (getRating none dom).category = none) := by
  refine ⟨?_, ?_, ?_, ?_, ?_, ?_, ?_⟩
  · intro sd agg v q dom hagg hval hvne hparse hqne
    obtain ⟨hsc, hcat⟩ := ratingFromSchema_of_score hagg hval hvne hparse hqne
    have hqT : qTruthy (ratingFromSchema (some sd)).score = true := by
      rw [hsc]
      simpa [qTruthy] using hqne
    have hsT : sTruthy (ratingFromSchema (some sd)).category = true := by
      rw [hcat]
      simpa [sTruthy] using categoryFromScore_ne_empty q
    simp only [getRating]
    by_cases hrc : nTruthy (ratingFromSchema (some sd)).reviewCount = true
    · rw [if_pos ⟨hqT, hrc⟩]
      exact hcat
    · rw [if_neg (by intro hand; exact hrc hand.2)]
      show (if ¬ (sTruthy (ratingFromSchema (some sd)).category = true) ∧
            sTruthy dom.category = true
          then dom.category else (ratingFromSchema (some sd)).category) =
        some (categoryFromScore q)
      rw [if_neg (by intro hand; exact hand.1 hsT)]
      exact hcat
  · intro q h
    unfold categoryFromScore
    rw [if_pos h]
  · intro q h h₂
    unfold categoryFromScore
    rw [if_neg (not_le.mpr h₂), if_pos h]
  · intro q h h₂
    unfold categoryFromScore
    rw [if_neg (not_le.mpr (lt_trans h₂ (by norm_num))), if_neg (not_le.mpr h₂), if_pos h]
  · intro q h h₂
    unfold categoryFromScore
    rw [if_neg (not_le.mpr (lt_trans h₂ (by norm_num))),
      if_neg (not_le.mpr (lt_trans h₂ (by norm_num))), if_neg (not_le.mpr h₂), if_pos h]
  · intro q h
    unfold categoryFromScore
    rw [if_neg (not_le.mpr (lt_trans h (by norm_num))),
      if_neg (not_le.mpr (lt_trans h (by norm_num))),
      if_neg (not_le.mpr (lt_trans h (by norm_num))), if_neg (not_le.mpr h)]
  · intro dom hcat
    simp [getRating, ratingFromSchema, qTruthy, nTruthy, sTruthy, hcat]

/-- Schema blob carrying aggregateRating ratingValue "9.3". -/
def sd93 : SchemaData := { aggregateRating := some { ratingValue := some "9.3" } }

/-- Claim C7 witness: the threshold derivation instantiated on structured data with
ratingValue "9.3" (category "Excellent"), plus the parse and threshold facts for
"7.5" (category "Good"). -/
theorem c7_rating_thresholds_witness :
    (getRating (some sd93) {}).category = some (categoryFromScore (mkRat 93 10)) ∧
    categoryFromScore (mkRat 93 10) = "Excellent" ∧
    jsParseFloat "7.5" = some (mkRat 75 10) ∧
    categoryFromScore (mkRat 75 10) = "Good" :=
  ⟨c7_rating_thresholds.1 sd93 { ratingValue := some "9.3" } "9.3" (mkRat 93 10) {}
      rfl rfl (by decide) (by decide) (by decide),
    c7_rating_thresholds.2.1 (mkRat 93 10) (by decide),
    by decide,
    c7_rating_thresholds.2.2.2.1 (mkRat 75 10) (by decide) (by decide)⟩

/-- Page used by the C8 counterexample: the primary name selector matches an element
with whitespace-only text, and a fallback selector matches the real name. -/
def pageC8 : Page :=
  [("h2.pp-header__title", { textContent := "  " }),
   ("h2[data-testid=\"property-name\"]", { textContent := "Grand Hotel" })]

/-- Claim C8 counterexample: with no schema name, the primary selector matches an
element whose trimmed text is empty, and getHotelName returns that empty string
instead of proceeding to the fallback selector (which would yield "Grand Hotel"). -/
theorem c8_counterexample :
    getHotelName none pageC8 = some "" ∧
    domFirstMatch pageC8 (nameSelectors.drop 1) = some "Grand Hotel" := by
  constructor <;> decide

/-- Claim C8 (amended): the hotel-name and address cascades advance to the next
selector only when the current selector matches no element; when the primary selector
matches an element, its trimmed text is returned as is — including the empty string.
(Schema values, by contrast, are skipped when falsy.) -/
theorem c8_first_match_wins :
    (∀ (p : Page) (el : Elem), querySelector p "h2.pp-header__title" = some el →
      getHotelName none p = some (jsTrim el.textContent)) ∧
    (∀ (p : Page) (el : Elem), querySelector p "[data-testid=\"address\"]" = some el →
      getAddress none p = some (jsTrim el.textContent)) ∧
    (∀ (p : Page) (sel : String) (rest : List String), querySelector p sel = none →
      domFirstMatch p (sel :: rest) = domFirstMatch p rest) := by
  refine ⟨?_, ?_, ?_⟩
  · intro p el h
    show domFirstMatch p nameSelectors = some (jsTrim el.textContent)
    unfold nameSelectors domFirstMatch
    rw [h]
  · intro p el h
    show domFirstMatch p addressSelectors = some (jsTrim el.textContent)
    unfold addressSelectors domFirstMatch
    rw [h]
  · intro p sel rest h
    show (match querySelector p sel with
      | some el => some (jsTrim el.textContent)
      | none => domFirstMatch p rest) = domFirstMatch p rest
    rw [h]

/-- Claim C8 witness: the first-match behaviour instantiated on the counterexample
page, whose primary match has whitespace-only text. -/
theorem c8_first_match_wins_witness :
    getHotelName none pageC8 = some (jsTrim "  ") :=
  c8_first_match_wins.1 pageC8 { textContent := "  " } (by decide)

/-- FAQ page carrying two identical question/answer pairs. -/
def faqDupPage : FAQPage := ⟨some [⟨"Q", some "A"⟩, ⟨"Q", some "A"⟩], [], [], []⟩

/-- Claim C9 counterexample: two DOM elements with identical question and answer text
produce two entries in the FAQ result, not the claimed single de-duplicated entry. -/
theorem c9_counterexample :
    getFAQs faqDupPage = [("Q", "A"), ("Q", "A")] ∧
    (getFAQs faqDupPage).length = 2 := by
  constructor <;> decide

theorem foldl_dedupPush_nodup (l : List String) (res : List String) (h : res.Nodup) :
    (l.foldl dedupPush res).Nodup := by
  induction l generalizing res with
  | nil => exact h
  | cons a tl ih =>
    apply ih
    simp only [dedupPush]
    by_cases hc : jsTrim a ≠ "" ∧ jsTrim a ∉ res
    · rw [if_pos hc]
      refine List.Nodup.append h (List.nodup_singleton _) ?_
      intro b hb hbt
      rw [List.mem_singleton] at hbt
      exact hc.2 (hbt ▸ hb)
    · rw [if_neg hc]
      exact h

/-- Claim C9 (amended): facilities extraction de-duplicates by exact text equality
(the result never holds duplicates, and two identical facility texts collapse to one
entry), but FAQ extraction performs no de-duplication — identical question/answer
pairs each produce an entry. -/
theorem c9_facilities_dedup_faqs_not :
    (∀ p : FacilitiesPage, (getFacilities p).Nodup) ∧
    (getFacilities ⟨[["Wifi", "Wifi"]], [], [], []⟩ = ["Wifi"]) ∧
    (getFAQs faqDupPage = [("Q", "A"), ("Q", "A")]) := by
  refine ⟨?_, by decide, by decide⟩
  intro p
  simp only [getFacilities]
  by_cases hlen : (p.containers.foldl (fun r c => c.foldl dedupPush r) []).length = 0
  · rw [if_pos hlen]
    cases hfind : [p.fallbackPopular, p.fallbackImportant, p.fallbackGroups].find?
        (fun els => !els.isEmpty) with
    | none => exact List.nodup_nil
    | some els => exact foldl_dedupPush_nodup els [] List.nodup_nil
  · rw [if_neg hlen]
    have hnest : ∀ (cs : List (List String)) (res : List String), res.Nodup →
        (cs.foldl (fun r c => c.foldl dedupPush r) res).Nodup := by
      intro cs
      induction cs with
      | nil => intro res h; exact h
      | cons c tl ih => intro res h; exact ih _ (foldl_dedupPush_nodup c res h)
    exact hnest p.containers [] List.nodup_nil

/-- Claim C9 witness: the de-duplication fact instantiated on a concrete facilities
page with a repeated text across containers. -/
theorem c9_facilities_dedup_faqs_not_witness :
    (getFacilities ⟨[["Pool"], ["Pool", "Spa"]], [], [], []⟩).Nodup :=
  c9_facilities_dedup_faqs_not.1 ⟨[["Pool"], ["Pool", "Spa"]], [], [], []⟩

/-- Claim C10: the assembled result always carries a name, an address and a numeric
rating (the mapping is total into those fields): a falsy crawler name becomes
"Unknown Hotel", a falsy address becomes "No address", a missing rating or score
becomes 0, a truthy score is stored as rating — rating?.score, not the composite
rating object, whose category lands separately in ratingCategory. -/
theorem c10_result_defaults (cd : CrawlerData) :
    ((cd.name = none ∨ cd.name = some "") → (mapCrawlerResult cd).name = "Unknown Hotel") ∧
    (∀ s, cd.name = some s → s ≠ "" → (mapCrawlerResult cd).name = s) ∧
    ((cd.address = none ∨ cd.address = some "") →
      (mapCrawlerResult cd).address = "No address") ∧
    (∀ s, cd.address = some s → s ≠ "" → (mapCrawlerResult cd).address = s) ∧
    (cd.rating = none → (mapCrawlerResult cd).rating = 0) ∧
    (∀ r, cd.rating = some r → r.score = none → (mapCrawlerResult cd).rating = 0) ∧
    (∀ r q, cd.rating = some r → r.score = some q → q ≠ 0 →
      (mapCrawlerResult cd).rating = q) ∧
    (∀ r, cd.rating = some r → (mapCrawlerResult cd).ratingCategory = r.category) := by
  refine ⟨?_, ?_, ?_, ?_, ?_, ?_, ?_, ?_⟩
  · rintro (h | h) <;> simp [mapCrawlerResult, jsOrS, h]
  · intro s h hne
    simp [mapCrawlerResult, jsOrS, h, hne]
  · rintro (h | h) <;> simp [mapCrawlerResult, jsOrS, h]
  · intro s h hne
    simp [mapCrawlerResult, jsOrS, h, hne]
  · intro h
    simp [mapCrawlerResult, jsOrQ, h]
  · intro r h hs
    simp [mapCrawlerResult, jsOrQ, h, hs]
  · intro r q h hs hne
    simp [mapCrawlerResult, jsOrQ, h, hs, hne]
  · intro r h
    simp [mapCrawlerResult, h]

/-- Claim C10 witness: the defaults instantiated on the empty crawler response. -/
theorem c10_result_defaults_witness : (mapCrawlerResult {}).name = "Unknown Hotel" :=
  (c10_result_defaults {}).1 (Or.inl rfl)

/-! Timed model for claim C6.  checkQueue is invoked both by the 1000 ms interval
(src/App.tsx lines 218-223) and by the setTimeout scheduled in the finally block of
processTask, delayPerLink seconds after a completion (lines 187-195).  States carry
the wall clock, the next interval due time and the pending delayed re-invocations. -/

/-- Pending delayed checkQueue re-invocation (the setTimeout of the finally block). -/
structure DTimer where
  created : ℕ
  due : ℕ
deriving DecidableEq, Repr

/-- Scheduling events recorded with their times (milliseconds). -/
inductive TEvent where
  | started (i : ℕ) (t : ℕ)
  | completed (i : ℕ) (t : ℕ)
deriving DecidableEq, Repr

/-- Timed orchestrator state. -/
structure TimedState where
  now : ℕ
  nextTick : ℕ
  delayed : List DTimer
  orch : OrchState
  events : List TEvent
deriving Repr

/-- Start events produced by one checkQueue invocation at time t. -/
def tickEvents (limit : ℕ) (s : OrchState) (t : ℕ) : List TEvent :=
  match tickAction limit s with
  | .start w => [.started w.id t]
  | _ => []

/-- Initial timed state. -/
def tinit : TimedState := ⟨0, 0, [], initState, []⟩

/-- Timed transition relation; delaySec is config.delayPerLink in seconds.  The
interval tick fires at its due time and re-arms 1000 ms later; a delayed
re-invocation fires exactly at its due time; a completion at time t schedules the
delayed re-invocation for t + delaySec * 1000. -/
inductive TStep (limit delaySec : ℕ) : TimedState → TimedState → Prop where
  | tick (s : TimedState) (t : ℕ) (hrun : s.orch.running = true)
      (ht : t = s.nextTick) (hge : s.now ≤ t) :
      TStep limit delaySec s
        ⟨t, t + 1000, s.delayed, applyTick limit s.orch,
          s.events ++ tickEvents limit s.orch t⟩
  | delayedFire (s : TimedState) (t : ℕ) (tm : DTimer) (hmem : tm ∈ s.delayed)
      (ht : t = tm.due) (hge : s.now ≤ t) :
      TStep limit delaySec s
        ⟨t, s.nextTick, s.delayed.erase tm, applyTick limit s.orch,
          s.events ++ tickEvents limit s.orch t⟩
  | complete (s : TimedState) (t : ℕ) (i : ℕ) (oc : Outcome)
      (hmem : i ∈ s.orch.inflight) (hge : s.now ≤ t) :
      TStep limit delaySec s
        ⟨t, s.nextTick, s.delayed ++ [⟨t, t + delaySec * 1000⟩],
          applyComplete s.orch i oc, s.events ++ [.completed i t]⟩
  | sync (s : TimedState) (t : ℕ) (hge : s.now ≤ t) :
      TStep limit delaySec s
        ⟨t, s.nextTick, s.delayed, { s.orch with snap := s.orch.queue }, s.events⟩
  | addLinks (s : TimedState) (t : ℕ) (specs : List NewTask)
      (hfresh : freshSpecs s.orch specs) (hge : s.now ≤ t) :
      TStep limit delaySec s
        ⟨t, s.nextTick, s.delayed, applyAdd s.orch specs, s.events⟩
  | setRunning (s : TimedState) (t : ℕ) (b : Bool) (hge : s.now ≤ t) :
      TStep limit delaySec s
        ⟨t, (if b then t + 1000 else s.nextTick), s.delayed,
          { s.orch with running := b }, s.events⟩

/-- Timed reachability from the initial state. -/
def TReachable (limit delaySec : ℕ) (s : TimedState) : Prop :=
  Relation.ReflTransGen (TStep limit delaySec) tinit s

/-- Second link of the timed trace. -/
def traceSpec2 : NewTask := { id := 2, url := "https://example.com/hotel2", now := 0 }

/-- Timed trace (concurrency 1, delayPerLink 2 s): both links added at time 0. -/
def c6s1 : TimedState := ⟨0, 0, [], applyAdd initState [traceSpec, traceSpec2], []⟩

/-- Timed trace: started at time 0, interval armed for 1000 ms. -/
def c6s2 : TimedState := ⟨0, 1000, [], { c6s1.orch with running := true }, []⟩

/-- Timed trace: snapshot synchronised at time 0. -/
def c6s3 : TimedState := ⟨0, 1000, [], { c6s2.orch with snap := c6s2.orch.queue }, []⟩

/-- Timed trace: the 1000 ms tick starts task 1. -/
def c6s4 : TimedState :=
  ⟨1000, 2000, [], applyTick 1 c6s3.orch, [] ++ tickEvents 1 c6s3.orch 1000⟩

/-- Timed trace: task 1 completes at 1500 ms; the delayed re-invocation is scheduled
for 3500 ms. -/
def c6s5 : TimedState :=
  ⟨1500, 2000, [] ++ [⟨1500, 1500 + 2 * 1000⟩], applyComplete c6s4.orch 1 (.ok traceHotel 1500),
    c6s4.events ++ [.completed 1 1500]⟩

/-- Timed trace: snapshot synchronised at 1600 ms. -/
def c6s6 : TimedState :=
  ⟨1600, 2000, c6s5.delayed, { c6s5.orch with snap := c6s5.orch.queue }, c6s5.events⟩

/-- Timed trace: the 2000 ms interval tick starts task 2, well before the delayed
re-invocation due at 3500 ms. -/
def c6s7 : TimedState :=
  ⟨2000, 3000, c6s6.delayed, applyTick 1 c6s6.orch,
    c6s6.events ++ tickEvents 1 c6s6.orch 2000⟩

theorem c6s5_reachable : TReachable 1 2 c6s5 :=
  Relation.ReflTransGen.tail (Relation.ReflTransGen.tail (Relation.ReflTransGen.tail
    (Relation.ReflTransGen.tail (Relation.ReflTransGen.single
      (TStep.addLinks tinit 0 [traceSpec, traceSpec2] ⟨by decide, by decide⟩ (by decide)))
    (TStep.setRunning c6s1 0 true (by decide)))
    (TStep.sync c6s2 0 (by decide)))
    (TStep.tick c6s3 1000 (by decide) (by decide) (by decide)))
    (TStep.complete c6s4 1500 1 (.ok traceHotel 1500) (by decide) (by decide))

theorem c6s7_reachable : TReachable 1 2 c6s7 :=
  Relation.ReflTransGen.tail (Relation.ReflTransGen.tail c6s5_reachable
    (TStep.sync c6s5 1600 (by decide)))
    (TStep.tick c6s6 2000 (by decide) (by decide) (by decide))

/-- Claim C6 counterexample: with concurrency 1 and delayPerLink of 2 seconds, task 1
completes at 1500 ms and frees the only slot; the next 1-second interval tick starts
task 2 at 2000 ms, before the per-task delay has elapsed (the delayed re-invocation is
still pending until 3500 ms): the delay is not enforced before the freed slot is
reused. -/
theorem c6_counterexample :
    TReachable 1 2 c6s7 ∧
    TEvent.completed 1 1500 ∈ c6s7.events ∧
    TEvent.started 2 2000 ∈ c6s7.events ∧
    c6s7.delayed = [⟨1500, 3500⟩] ∧
    2000 < 1500 + 2 * 1000 :=
  ⟨c6s7_reachable, by decide, by decide, by decide, by decide⟩

/-- Claim C6 (amended): the per-task delay is enforced on the completion-triggered
path — every delayed checkQueue re-invocation pending in a reachable timed state is
scheduled exactly delayPerLink seconds after its completion (and fires only at that
due time) — but the freed concurrency slot itself may be used earlier by the periodic
1-second interval tick. -/
theorem c6_delay_on_completion_path (limit delaySec : ℕ) (s : TimedState)
    (h : TReachable limit delaySec s) :
    ∀ tm ∈ s.delayed, tm.due = tm.created + delaySec * 1000 := by
  induction h with
  | refl =>
    intro tm htm
    simp [tinit] at htm
  | tail hchain hstep ih =>
    cases hstep with
    | tick t hrun ht hge => exact ih
    | delayedFire t tm hmem ht hge =>
      intro tm₂ htm₂
      exact ih tm₂ (List.mem_of_mem_erase htm₂)
    | complete t i oc hmem hge =>
      intro tm htm
      rcases List.mem_append.1 htm with h₁ | h₂
      · exact ih tm h₁
      · rw [List.mem_singleton] at h₂
        subst h₂
        rfl
    | sync t hge => exact ih
    | addLinks t specs hfresh hge => exact ih
    | setRunning t b hge => exact ih

/-- Claim C6 witness: the delay bookkeeping instantiated on the timer pending in the
reachable timed state right after the completion at 1500 ms. -/
theorem c6_delay_on_completion_path_witness :
    (⟨1500, 3500⟩ : DTimer).due = (⟨1500, 3500⟩ : DTimer).created + 2 * 1000 :=
  c6_delay_on_completion_path 1 2 c6s5 c6s5_reachable ⟨1500, 3500⟩ (by decide)

end Crawl2
